import Mathlib

/-
Verification of the pyggputils GGP player protocol handler.

This file gives a shallow embedding of:
  - src/ggputils/utils.py          (s-expression codec and action helpers)
  - src/ggputils/player/ggp_http_handler.py
                                   (the WSGI Handler: message regexes, the
                                    per-message handlers, the goodness test
                                    of the admission layer, and an abstract
                                    transition system for the two-queue
                                    admission sequencer)

Strings are modelled as lists of characters (Str).  Python regular
expressions used by the handler are embedded as executable character-level
functions whose semantics matches the (anchored, greedy, backtracking)
behaviour of the concrete patterns on all inputs; each definition carries a
comment naming the regex it embeds.  Python exceptions are modelled with
Except; the distinction between HTTPErrorResponse (protocol-level errors)
and unexpected exceptions (which produce a 500 and are re-raised) is kept
in the HErr type.  User callbacks are pure parameters; the sequence of
callback invocations performed by a handler is returned as a trace of
CbEvent values.
-/

namespace GGP

abbrev Str := List Char

/-- Python whitespace class for the re module on byte strings: [ \t\n\r\f\v]. -/
def isWS (c : Char) : Bool :=
  c == ' ' || c == '\t' || c == '\n' || c == '\r' || c == '\x0b' || c == '\x0c'

/-- Characters admissible inside one token of parse_simple_sexp.  The term
regex of utils.py is [^(^)\s]+ : it excludes the round brackets, every
whitespace character, and also the caret character. -/
def isTokChar (c : Char) : Bool :=
  !(c == '(' || c == '^' || c == ')' || isWS c)

inductive Tok where
  | lpar
  | rpar
  | atom (s : Str)
deriving DecidableEq

/-- Emit the pending token accumulator (held in reverse) if it is non-empty. -/
def flushTok : Str → List Tok → List Tok
  | [], ts => ts
  | acc, ts => Tok.atom acc.reverse :: ts

/-- Tokenizer of parse_simple_sexp: re.finditer over the term regex.  A
maximal run of token characters is one atom; brackets delimit; every other
character (whitespace and the caret) is skipped. -/
def tokenizeAux : Str → Str → List Tok
  | [], acc => flushTok acc []
  | c :: rest, acc =>
    if c == '(' then flushTok acc (Tok.lpar :: tokenizeAux rest [])
    else if c == ')' then flushTok acc (Tok.rpar :: tokenizeAux rest [])
    else if isTokChar c then tokenizeAux rest (c :: acc)
    else flushTok acc (tokenizeAux rest [])

def tokenize (s : Str) : List Tok := tokenizeAux s []

/-- S-expression values: atoms (Python str) or lists (Python list). -/
inductive SExp where
  | atom (s : Str)
  | list (xs : List SExp)

mutual
def sbeq : SExp → SExp → Bool
  | SExp.atom a, SExp.atom b => a == b
  | SExp.list xs, SExp.list ys => sbeqL xs ys
  | _, _ => false
def sbeqL : List SExp → List SExp → Bool
  | [], [] => true
  | x :: xs, y :: ys => sbeq x y && sbeqL xs ys
  | _, _ => false
end

/-- Member-wise induction principle for the nested inductive SExp. -/
def SExp.myInduction (motive : SExp → Prop)
    (hatom : ∀ a, motive (SExp.atom a))
    (hlist : ∀ xs, (∀ x ∈ xs, motive x) → motive (SExp.list xs)) :
    ∀ x, motive x := by
  intro x
  refine SExp.rec (motive_1 := motive) (motive_2 := fun xs => ∀ y ∈ xs, motive y)
    hatom (fun xs ih => hlist xs ih) ?_ ?_ x
  · intro y hy; exact absurd hy (List.not_mem_nil y)
  · intro z zs ihz ihzs y hy
    rcases List.mem_cons.mp hy with h | h
    · exact h ▸ ihz
    · exact ihzs y h

def sbeq_eq_iff : ∀ a b, sbeq a b = true ↔ a = b := by
  intro a
  induction a using SExp.myInduction with
  | hatom s =>
    intro b
    cases b with
    | atom t => simp [sbeq]
    | list ys => simp [sbeq]
  | hlist xs ih =>
    intro b
    cases b with
    | atom t => simp [sbeq]
    | list ys =>
      simp only [sbeq, SExp.list.injEq]
      induction xs generalizing ys with
      | nil => cases ys <;> simp [sbeqL]
      | cons x xs ihx =>
        cases ys with
        | nil => simp [sbeqL]
        | cons y ys =>
          simp only [sbeqL, Bool.and_eq_true, List.cons.injEq]
          constructor
          · rintro ⟨h1, h2⟩
            refine ⟨(ih x (by simp) y).mp h1, ?_⟩
            exact (ihx (fun z hz => ih z (by simp [hz])) ys).mp h2
          · rintro ⟨h1, h2⟩
            refine ⟨(ih x (by simp) y).mpr h1, ?_⟩
            exact (ihx (fun z hz => ih z (by simp [hz])) ys).mpr h2

instance : DecidableEq SExp := fun a b => decidable_of_iff _ (sbeq_eq_iff a b)

/-- The stack machine of parse_simple_sexp.  The stack holds the partial
outer lists; out is the list being built.  A close bracket with an empty
stack, or a non-empty stack at the end of input, is the ValueError
"Bad bracket nesting". -/
def runToks : List Tok → List (List SExp) → List SExp → Except Unit (List SExp)
  | [], stack, out => if stack.isEmpty then Except.ok out else Except.error ()
  | Tok.lpar :: ts, stack, out => runToks ts (out :: stack) []
  | Tok.rpar :: ts, stack, out =>
    match stack with
    | [] => Except.error ()
    | top :: stack2 => runToks ts stack2 (top ++ [SExp.list out])
  | Tok.atom s :: ts, stack, out => runToks ts stack (out ++ [SExp.atom s])

/-- parse_simple_sexp of utils.py.  An all-whitespace input is rejected up
front; afterwards the token stream drives the stack machine and the FIRST
top-level value (out[0]) is returned; any further top-level values are
silently discarded, exactly as in the source. -/
def parse_simple_sexp (s : Str) : Except Unit SExp :=
  if s.all isWS then Except.error ()
  else
    match runToks (tokenize s) [] [] with
    | Except.error _ => Except.error ()
    | Except.ok [] => Except.error ()
    | Except.ok (x :: _) => Except.ok x

/-- Python ' '.join. -/
def joinSpace : List Str → Str
  | [] => []
  | [s] => s
  | s :: rest => s ++ ' ' :: joinSpace rest

/-- Characters that make a text element unserializable in exp_to_sexp:
re.search of [\s()].  Note the caret is NOT rejected here. -/
def badAtomChar (c : Char) : Bool :=
  isWS c || c == '(' || c == ')'

mutual
/-- exp_to_sexp of utils.py: lists render as space-joined children inside
round brackets; atoms render verbatim unless they contain whitespace or a
bracket, in which case a ValueError is raised. -/
def exp_to_sexp : SExp → Except Unit Str
  | SExp.atom a => if a.any badAtomChar then Except.error () else Except.ok a
  | SExp.list xs =>
    match exp_to_sexp_list xs with
    | Except.error e => Except.error e
    | Except.ok ss => Except.ok ('(' :: joinSpace ss ++ [')'])
def exp_to_sexp_list : List SExp → Except Unit (List Str)
  | [] => Except.ok []
  | x :: xs =>
    match exp_to_sexp x, exp_to_sexp_list xs with
    | Except.ok s, Except.ok ss => Except.ok (s :: ss)
    | Except.error e, _ => Except.error e
    | _, Except.error e => Except.error e
end

/-- Case-insensitive equality of strings (ASCII, as used by re.IGNORECASE
on the protocol keywords). -/
def eqCI (a b : Str) : Bool :=
  a.map Char.toLower == b.map Char.toLower

/-- parse_actions_sexp of utils.py: the atom NIL (any case) is the empty
action list, any other atom is a singleton, and a list maps exp_to_sexp
over its children. -/
def parse_actions_sexp (s : Str) : Except Unit (List Str) :=
  match parse_simple_sexp s with
  | Except.error _ => Except.error ()
  | Except.ok (SExp.atom a) =>
    if eqCI a ("NIL".data) then Except.ok []
    else
      match exp_to_sexp (SExp.atom a) with
      | Except.error _ => Except.error ()
      | Except.ok s2 => Except.ok [s2]
  | Except.ok (SExp.list xs) =>
    match exp_to_sexp_list xs with
    | Except.error _ => Except.error ()
    | Except.ok ss => Except.ok ss

/-- actions_to_sexp of utils.py, restricted to its list inputs (on which
the hasattr iterability test always succeeds). -/
def actions_to_sexp (as : List Str) : Str :=
  match as with
  | [] => "NIL".data
  | [a] => a
  | _ => '(' :: joinSpace as ++ [')']

-- Well-formedness used by the round-trip claim: every atom is a
-- non-empty token, i.e. free of whitespace, round brackets and the caret.
mutual
def wfSExp : SExp → Bool
  | SExp.atom a => !a.isEmpty && a.all isTokChar
  | SExp.list xs => wfList xs
def wfList : List SExp → Bool
  | [] => true
  | x :: xs => wfSExp x && wfList xs
end

-- Total serialization of an s-expression (specification-side companion of
-- exp_to_sexp, equal to it on well-formed values).
mutual
def ser : SExp → Str
  | SExp.atom a => a
  | SExp.list xs => '(' :: serList xs ++ [')']
def serList : List SExp → Str
  | [] => []
  | [x] => ser x
  | x :: y :: xs => ser x ++ ' ' :: serList (y :: xs)
end

-- The token stream a well-formed s-expression serializes to.
mutual
def sexpToks : SExp → List Tok
  | SExp.atom a => [Tok.atom a]
  | SExp.list xs => Tok.lpar :: sexpToksList xs ++ [Tok.rpar]
def sexpToksList : List SExp → List Tok
  | [] => []
  | x :: xs => sexpToks x ++ sexpToksList xs
end

/-- A string whose head cannot extend a pending token. -/
def headNonTok : Str → Prop
  | [] => True
  | c :: _ => isTokChar c = false

/- ------------------------------------------------------------------
Embeddings of the compiled regular expressions of ggp_http_handler.py.
All patterns are applied with re.match, hence anchored at the start;
DOTALL is set on the full message patterns, so the dot crosses newlines
there; IGNORECASE is set everywhere except in _set_case.
------------------------------------------------------------------- -/

def dropWS (s : Str) : Str := s.dropWhile isWS

def dropTrailWS (s : Str) : Str := (s.reverse.dropWhile isWS).reverse

/-- Case-insensitive literal keyword at the front; returns the remainder. -/
def stripCI : Str → Str → Option Str
  | [], s => some s
  | _ :: _, [] => none
  | k :: ks, c :: cs =>
    if Char.toLower k == Char.toLower c then stripCI ks cs else none

/-- The common `\s*\(\s*KEYWORD` front of every message pattern; returns the
remainder right after the keyword. -/
def afterKeyword (kw : Str) (s : Str) : Option Str :=
  match dropWS s with
  | [] => none
  | c :: r => if c == '(' then stripCI kw (dropWS r) else none

/-- The SEARCH_* recognisers: does the start of the message look like
`\s*\(\s*KEYWORD` (case-insensitive)? -/
def keywordHit (kw : Str) (s : Str) : Bool :=
  (afterKeyword kw s).isSome

/-- One mandatory whitespace, then greedily the rest of the run: `\s+`. -/
def reqWSthen (s : Str) : Option Str :=
  match s with
  | [] => none
  | c :: r => if isWS c then some (dropWS r) else none

/-- `([^\s]+)\s+` : a maximal non-whitespace run which must be non-empty and
followed by at least one whitespace character (a shorter group would be
followed by a non-space and the mandatory `\s+` could not match). -/
def grabTok (s : Str) : Option (Str × Str) :=
  let run := s.takeWhile (fun c => !isWS c)
  let rest := s.dropWhile (fun c => !isWS c)
  if run.isEmpty then none
  else
    match rest with
    | [] => none
    | _ :: _ => some (run, dropWS rest)

/-- `(.*)\s*\)\s*$` under DOTALL: the last non-whitespace character of the
remainder must be a close bracket, and the group is everything before it
(the greedy dot makes the group maximal; `\s*$` also covers a trailing
newline accepted by the dollar anchor). -/
def lastParenSplit (s : Str) : Option Str :=
  match (dropTrailWS s).reverse with
  | [] => none
  | c :: rs => if c == ')' then some rs.reverse else none

/-- MATCH_PLAY / MATCH_STOP:
`^\s*\(\s*KW\s+([^\s]+)\s+(.*)\s*\)\s*$` (IGNORECASE | DOTALL).
Returns (matchid, remaining text). -/
def matchPlayStopBody (kw : Str) (s : Str) : Option (Str × Str) :=
  (afterKeyword kw s).bind fun r =>
  (reqWSthen r).bind fun r2 =>
  (grabTok r2).bind fun p =>
  (lastParenSplit p.2).bind fun payload =>
  some (p.1, payload)

def matchPLAY (s : Str) : Option (Str × Str) := matchPlayStopBody ("PLAY".data) s

def matchSTOP (s : Str) : Option (Str × Str) := matchPlayStopBody ("STOP".data) s

/-- MATCH_ABORT: `\s*\(\s*ABORT\s+([^\s]+)\s*\)\s*$`.  After dropping the
trailing whitespace the remainder must end with a close bracket; what is
left before it, after stripping the `\s*` gap, must be one non-empty run of
non-whitespace characters: that run is the matchid. -/
def matchABORT (s : Str) : Option Str :=
  (afterKeyword ("ABORT".data) s).bind fun r =>
  (reqWSthen r).bind fun r2 =>
  match (dropTrailWS r2).reverse with
  | [] => none
  | c :: rs =>
    if c == ')' then
      if (dropTrailWS rs.reverse).isEmpty || (dropTrailWS rs.reverse).any isWS
      then none
      else some (dropTrailWS rs.reverse)
    else none

/-- MATCH_SPS_MATCHID:
`\s*\(\s*(START|PLAY|STOP)\s+([^\s]+)\s+.*\)\s*$` (IGNORECASE | DOTALL).
Returns the second group, the embedded matchid. -/
def matchSPS (s : Str) : Option Str :=
  ((afterKeyword ("START".data) s).orElse
    (fun _ => (afterKeyword ("PLAY".data) s).orElse
      (fun _ => afterKeyword ("STOP".data) s))).bind fun r =>
  (reqWSthen r).bind fun r2 =>
  (grabTok r2).bind fun p =>
  (lastParenSplit p.2).bind fun _ =>
  some p.1

def natOfDigits (s : Str) : Nat :=
  s.foldl (fun n c => n * 10 + (c.toNat - 48)) 0

/-- MATCH_START:
`^\s*\(\s*START\s+([^\s]+)\s+([^\s]+)\s+\((.*)\)\s+(\d+)\s+(\d+)\s*\)\s*$`.
The tail after the GDL group is parsed deterministically from the end of
the message: the decomposition into `\)\s+(\d+)\s+(\d+)\s*\)\s*$` is unique
because each digit run must be flanked by mandatory whitespace and the
final close bracket must be the last non-whitespace character.
Returns (matchid, role, gdl, startclock, playclock). -/
def matchSTART (s : Str) : Option (Str × Str × Str × Nat × Nat) :=
  match afterKeyword ("START".data) s with
  | none => none
  | some r =>
    match reqWSthen r with
    | none => none
    | some r1 =>
      match grabTok r1 with
      | none => none
      | some (mid, r2) =>
        match grabTok r2 with
        | none => none
        | some (role, r3) =>
          match r3 with
          | [] => none
          | c :: r4 =>
            if c == '(' then
              let rev := (r4.reverse).dropWhile isWS
              match rev with
              | [] => none
              | c1 :: rev1 =>
                if c1 == ')' then
                  let rev2 := rev1.dropWhile isWS
                  let d2r := rev2.takeWhile Char.isDigit
                  let rev3 := rev2.dropWhile Char.isDigit
                  if d2r.isEmpty then none
                  else if (rev3.takeWhile isWS).isEmpty then none
                  else
                    let rev4 := rev3.dropWhile isWS
                    let d1r := rev4.takeWhile Char.isDigit
                    let rev5 := rev4.dropWhile Char.isDigit
                    if d1r.isEmpty then none
                    else if (rev5.takeWhile isWS).isEmpty then none
                    else
                      match rev5.dropWhile isWS with
                      | [] => none
                      | c2 :: rev6 =>
                        if c2 == ')' then
                          some (mid, role, rev6.reverse,
                                natOfDigits d1r.reverse, natOfDigits d2r.reverse)
                        else none
                else none
            else none

/-- MATCH_PREVIEW: `\s*\(\s*PREVIEW\s+\((.*)\)\s+(\d+)\s*\)\s*$`.
Returns (gdl, previewclock). -/
def matchPREVIEW (s : Str) : Option (Str × Nat) :=
  match afterKeyword ("PREVIEW".data) s with
  | none => none
  | some r =>
    match reqWSthen r with
    | none => none
    | some r1 =>
      match r1 with
      | [] => none
      | c :: r2 =>
        if c == '(' then
          let rev := (r2.reverse).dropWhile isWS
          match rev with
          | [] => none
          | c1 :: rev1 =>
            if c1 == ')' then
              let rev2 := rev1.dropWhile isWS
              let dr := rev2.takeWhile Char.isDigit
              let rev3 := rev2.dropWhile Char.isDigit
              if dr.isEmpty then none
              else if (rev3.takeWhile isWS).isEmpty then none
              else
                match rev3.dropWhile isWS with
                | [] => none
                | c2 :: rev4 =>
                  if c2 == ')' then some (rev4.reverse, natOfDigits dr.reverse)
                  else none
            else none
        else none

/-- MATCH_INFO: `\s*\(\s*INFO\s*\)\s*$`. -/
def matchINFO (s : Str) : Bool :=
  match afterKeyword ("INFO".data) s with
  | none => false
  | some r =>
    match dropWS r with
    | [] => false
    | c :: rest => c == ')' && rest.all isWS

/-- The GDL-I PLAY payload pre-check `^\s*\(.*\)\s*$` (no DOTALL: the dot
does not cross a newline, while the whitespace classes do). -/
def checkParenForm (s : Str) : Bool :=
  match dropWS s with
  | [] => false
  | c :: r =>
    if c == '(' then
      match (dropTrailWS r).reverse with
      | [] => false
      | c2 :: mid => c2 == ')' && !(mid.any (fun d => d == '\n'))
    else false

/-- The GDL-I PLAY payload pre-check `^\s*NIL\s*$` (IGNORECASE). -/
def checkNIL (s : Str) : Bool :=
  match stripCI ("NIL".data) (dropWS s) with
  | some r => r.all isWS
  | none => false

/-- The turn prefix of a GDL-II PLAY/STOP component:
`^\s*(\d+)\s+(.*)\s*$` (no DOTALL).  The digit run is maximal and must be
followed by whitespace; the group is the remainder of the line up to the
first newline, after which only whitespace may follow. -/
def turnSplit (s : Str) : Option (Nat × Str) :=
  let r := dropWS s
  let ds := r.takeWhile Char.isDigit
  let rest := r.dropWhile Char.isDigit
  if ds.isEmpty then none
  else
    match rest with
    | [] => none
    | c :: _ =>
      if isWS c then
        let r2 := dropWS rest
        let line := r2.takeWhile (fun d => !(d == '\n'))
        let after := r2.dropWhile (fun d => !(d == '\n'))
        if after.all isWS then some (natOfDigits ds, line) else none
      else none

/-- re_m_GDL_ROLE.match: the child-head starts with the letters of role
(case-insensitive); re.match is a prefix match, not a full match. -/
def roleHead (s : Str) : Bool :=
  (stripCI ("ROLE".data) s).isSome

def toUpperStr (s : Str) : Str := s.map Char.toUpper

def toLowerStr (s : Str) : Str := s.map Char.toLower

/-- Python truthiness of an optional string (None and the empty string are
falsy). -/
def truthyOpt : Option Str → Bool
  | none => false
  | some s => !s.isEmpty

/- ------------------------------------------------------------------
The Handler state and the per-message handlers.
------------------------------------------------------------------- -/

inductive Protocol where
  | ggp1
  | ggp2
deriving DecidableEq

/-- The user-supplied callbacks.  Effects are recorded in the event trace;
these fields model only the values a callback returns to the handler. -/
structure Callbacks where
  onPlayRet : List (SExp × Str) → Str
  onPlay2Ret : Option Str → List Str → Str
  onInfoRet : Option Str
  hasPreview : Bool

/-- One observable callback invocation, with the protocol data the handler
passes to it (the advisory Timeout argument carries no protocol data and is
omitted from the events). -/
inductive CbEvent where
  | onStart (matchid role gdl : Str) (playclock : Nat)
  | onPlay (actions : List (SExp × Str))
  | onPlay2 (lastAction : Option Str) (observations : List Str)
  | onStop (actions : List (SExp × Str))
  | onStop2 (lastAction : Option Str) (observations : List Str)
  | onAbort
  | onInfo
  | onPreview (gdl : Str)
deriving DecidableEq

/-- The mutable per-handler state (the MatchSession of the specification).
_roles_in_correct_order appends the raw second element of each role
declaration, which need not be an atom, so roles holds SExp values. -/
structure HState where
  protocolVersion : Protocol
  uppercase : Bool
  gdl2Turn : Nat
  matchid : Option Str
  playclock : Option Nat
  startclock : Option Nat
  roles : List SExp
deriving DecidableEq

def initState (pv : Protocol) : HState :=
  { protocolVersion := pv, uppercase := true, gdl2Turn := 0,
    matchid := none, playclock := none, startclock := none, roles := [] }

/-- An exception escaping a handler: an HTTPErrorResponse with its status,
or any other exception (which _app_normal answers with 500 and re-raises). -/
inductive HErr where
  | httpError (status : Nat)
  | internal
deriving DecidableEq

/-- Result of one handle_* call: the new state, the trace of callback
invocations (in order), and the response body or the escaping exception.
A body of none models handle_START returning Python None. -/
abbrev HResult := HState × List CbEvent × Except HErr (Option Str)

/-- `^\s*\(\s*KW` with no IGNORECASE, as compiled inside _set_case. -/
def caseKeywordHit (kw : Str) (s : Str) : Bool :=
  match dropWS s with
  | [] => false
  | c :: r => c == '(' && kw.isPrefixOf (dropWS r)

/-- _set_case: record whether the recognised command keyword was upper or
lower case; an ambiguous keyword defaults to uppercase. -/
def setCase (st : HState) (msg : Str) (cmd : Str) : HState :=
  if caseKeywordHit (toUpperStr cmd) msg then { st with uppercase := true }
  else if caseKeywordHit (toLowerStr cmd) msg then { st with uppercase := false }
  else { st with uppercase := true }

/-- _response: render a reply in the recorded case. -/
def response (st : HState) (r : Str) : Str :=
  if st.uppercase then toUpperStr r else toLowerStr r

/-- The loop body of _roles_in_correct_order: collect the second element of
every two-element child whose first element is an atom matching the role
pattern.  A two-element child whose first element is a list makes
re.match raise a TypeError: the flag goes true and iteration stops, with
the roles collected so far kept (they were already appended to
self._roles). -/
def collectRoles : List SExp → (List SExp × Bool)
  | [] => ([], false)
  | SExp.list [SExp.atom s, b] :: rest =>
    if roleHead s then
      let (r, e) := collectRoles rest
      (b :: r, e)
    else collectRoles rest
  | SExp.list [SExp.list _, _] :: _ => ([], true)
  | _ :: rest => collectRoles rest

/-- _roles_in_correct_order: reset roles, parse "(gdl)", collect the role
declarations; any exception (parse failure, TypeError, or the final
ValueError on an empty list) leaves the flag false.  Returns the value
self._roles holds afterwards and whether the call succeeded. -/
def rolesInCorrectOrder (gdl : Str) : List SExp × Bool :=
  match parse_simple_sexp ('(' :: gdl ++ [')']) with
  | Except.error _ => ([], false)
  | Except.ok (SExp.atom _) => ([], false)
  | Except.ok (SExp.list xs) =>
    let (rs, err) := collectRoles xs
    if err then (rs, false)
    else if rs.isEmpty then ([], false)
    else (rs, true)

def isRoleDecl : SExp → Bool
  | SExp.list [SExp.atom s, _] => roleHead s
  | _ => false

/-- How many role declarations the GDL text contains (zero when the
wrapped text does not even parse). -/
def countRoleDecls (gdl : Str) : Nat :=
  match parse_simple_sexp ('(' :: gdl ++ [')']) with
  | Except.error _ => 0
  | Except.ok (SExp.atom _) => 0
  | Except.ok (SExp.list xs) => (xs.filter isRoleDecl).length

/-- Specification-side recogniser, following the claim's words rather than
the code: a (role ...) declaration is a GDL child list whose first element
is exactly the keyword role (case-insensitively).  The code's recogniser
roleHead differs: it accepts any head that merely starts with these four
letters. -/
def isExactRoleDecl : SExp → Bool
  | SExp.list (SExp.atom s :: _) => eqCI s ("role".data)
  | _ => false

/-- How many exact (role ...) declarations the GDL text contains (zero
when the wrapped text does not even parse). -/
def countExactRoleDecls (gdl : Str) : Nat :=
  match parse_simple_sexp ('(' :: gdl ++ [')']) with
  | Except.error _ => 0
  | Except.ok (SExp.atom _) => 0
  | Except.ok (SExp.list xs) => (xs.filter isExactRoleDecl).length

/-- The action returned by the PLAY callback is re-validated: if its
stripped text does not parse as an s-expression it is wrapped in one extra
layer of brackets (best-effort recovery). -/
def fixAction (a : Str) : Str :=
  match parse_simple_sexp (dropWS (dropTrailWS a)) with
  | Except.ok _ => a
  | Except.error _ => '(' :: a ++ [')']

def isListE : SExp → Bool
  | SExp.list _ => true
  | SExp.atom _ => false

/-- _parse_gdl2_playstop_component: "<turn> <lastmove> <observations>".
An unbalanced payload makes parse_simple_sexp raise an uncaught ValueError
(an internal fault); every shape violation raises the 400 error. -/
def parse_gdl2 (tmpstr : Str) : Except HErr (Nat × Option Str × List Str) :=
  match turnSplit tmpstr with
  | none => Except.error (HErr.httpError 400)
  | some (turn, rest) =>
    match parse_simple_sexp ('(' :: rest ++ [')']) with
    | Except.error _ => Except.error HErr.internal
    | Except.ok (SExp.atom _) => Except.error (HErr.httpError 400)
    | Except.ok (SExp.list l) =>
      match l with
      | [e0, e1] =>
        match exp_to_sexp e0 with
        | Except.error _ => Except.error HErr.internal
        | Except.ok la0 =>
          let laOpt := if la0 = "NIL".data then none else some la0
          if turn = 0 ∧ truthyOpt laOpt then Except.error (HErr.httpError 400)
          else
            match e1 with
            | SExp.atom s2 =>
              if s2 = "NIL".data then Except.ok (turn, laOpt, [])
              else Except.error (HErr.httpError 400)
            | SExp.list os =>
              match exp_to_sexp_list os with
              | Except.error _ => Except.error HErr.internal
              | Except.ok obs => Except.ok (turn, laOpt, obs)
      | _ => Except.error (HErr.httpError 400)

/-- handle_START.  The matchid and both clocks are stored before the GDL is
examined; a failing role extraction logs, clears the matchid again and
returns Python None (no callback fires and no exception escapes). -/
def handle_START (_cb : Callbacks) (st0 : HState) (msg : Str) : HResult :=
  let st := setCase st0 msg ("START".data)
  match matchSTART msg with
  | none => (st, [], Except.error (HErr.httpError 400))
  | some (mid, role, gdl, sclock, pclock) =>
    let st1 := { st with matchid := some mid, startclock := some sclock,
                         playclock := some pclock }
    let st2 := if st1.protocolVersion = Protocol.ggp2
               then { st1 with gdl2Turn := 0 } else st1
    let rsok := rolesInCorrectOrder gdl
    if rsok.2 then
      let st3 := { st2 with roles := rsok.1 }
      (st3, [CbEvent.onStart mid role gdl pclock],
       Except.ok (some (response st3 ("READY".data))))
    else
      ({ st2 with matchid := none, roles := rsok.1 }, [], Except.ok none)

/-- handle_PLAY.  On a matchid mismatch the abort callback fires, the
matchid is cleared and the 400 error escapes.  Under GDL-I the payload
must look like a bracketed list or NIL, parse to an action list whose
length is zero or the role count, and the role/action pairs must have
hashable (atom) keys for dict(); the callback result is re-validated by
fixAction.  Under GDL-II the callback fires before the turn number is
compared with the session counter, which is incremented only afterwards. -/
def handle_PLAY (cb : Callbacks) (st : HState) (msg : Str) : HResult :=
  match matchPLAY msg with
  | none => (st, [], Except.error (HErr.httpError 400))
  | some (mid, tmpstr) =>
    if st.matchid ≠ some mid then
      ({ st with matchid := none }, [CbEvent.onAbort],
       Except.error (HErr.httpError 400))
    else
      match st.protocolVersion with
      | Protocol.ggp1 =>
        if !(checkParenForm tmpstr || checkNIL tmpstr) then
          (st, [], Except.error (HErr.httpError 400))
        else
          match parse_actions_sexp tmpstr with
          | Except.error _ => (st, [], Except.error HErr.internal)
          | Except.ok actions =>
            if actions.length ≠ 0 ∧ actions.length ≠ st.roles.length then
              (st, [], Except.error (HErr.httpError 400))
            else
              match st.playclock with
              | none => (st, [], Except.error HErr.internal)
              | some _ =>
                let pairs := st.roles.zip actions
                if pairs.any (fun p => isListE p.1) then
                  (st, [], Except.error HErr.internal)
                else
                  let a := cb.onPlayRet pairs
                  (st, [CbEvent.onPlay pairs], Except.ok (some (fixAction a)))
      | Protocol.ggp2 =>
        match parse_gdl2 tmpstr with
        | Except.error e => (st, [], Except.error e)
        | Except.ok (turn, la, obs) =>
          match st.playclock with
          | none => (st, [], Except.error HErr.internal)
          | some _ =>
            let a := cb.onPlay2Ret la obs
            if turn ≠ st.gdl2Turn then
              (st, [CbEvent.onPlay2 la obs], Except.error (HErr.httpError 400))
            else
              ({ st with gdl2Turn := st.gdl2Turn + 1 },
               [CbEvent.onPlay2 la obs], Except.ok (some (fixAction a)))

/-- handle_STOP.  Mirrors handle_PLAY except: no payload pre-check, a
zero-length action list is rejected (it must equal the role count), the
GDL-II turn check precedes the callback, and on success the response is
DONE.  Note the source never clears self._matchid here. -/
def handle_STOP (_cb : Callbacks) (st : HState) (msg : Str) : HResult :=
  match matchSTOP msg with
  | none => (st, [], Except.error (HErr.httpError 400))
  | some (mid, tmpstr) =>
    if st.matchid ≠ some mid then
      ({ st with matchid := none }, [CbEvent.onAbort],
       Except.error (HErr.httpError 400))
    else
      match st.protocolVersion with
      | Protocol.ggp1 =>
        match parse_actions_sexp tmpstr with
        | Except.error _ => (st, [], Except.error HErr.internal)
        | Except.ok actions =>
          if actions.length ≠ st.roles.length then
            (st, [], Except.error (HErr.httpError 400))
          else
            match st.playclock with
            | none => (st, [], Except.error HErr.internal)
            | some _ =>
              let pairs := st.roles.zip actions
              if pairs.any (fun p => isListE p.1) then
                (st, [], Except.error HErr.internal)
              else
                (st, [CbEvent.onStop pairs],
                 Except.ok (some (response st ("DONE".data))))
      | Protocol.ggp2 =>
        match parse_gdl2 tmpstr with
        | Except.error e => (st, [], Except.error e)
        | Except.ok (turn, la, obs) =>
          if turn ≠ st.gdl2Turn then
            (st, [], Except.error (HErr.httpError 400))
          else
            let st2 := { st with gdl2Turn := st.gdl2Turn + 1 }
            match st2.playclock with
            | none => (st2, [], Except.error HErr.internal)
            | some _ =>
              (st2, [CbEvent.onStop2 la obs],
               Except.ok (some (response st2 ("DONE".data))))

/-- handle_ABORT: the case is recorded first; a matchid mismatch fires the
abort callback, clears the matchid and raises 400; a matching abort clears
the matchid, fires the callback and answers ABORTED. -/
def handle_ABORT (_cb : Callbacks) (st0 : HState) (msg : Str) : HResult :=
  let st := setCase st0 msg ("ABORT".data)
  match matchABORT msg with
  | none => (st, [], Except.error (HErr.httpError 400))
  | some mid =>
    if st.matchid ≠ some mid then
      ({ st with matchid := none }, [CbEvent.onAbort],
       Except.error (HErr.httpError 400))
    else
      ({ st with matchid := none }, [CbEvent.onAbort],
       Except.ok (some (response st ("ABORTED".data))))

/-- handle_INFO: with no callback the default reply is BUSY when a matchid
is set, AVAILABLE otherwise.  A configured callback is invoked once to test
emptiness (an empty reply raises an uncaught ValueError) and then a second
time to produce the response. -/
def handle_INFO (cb : Callbacks) (st0 : HState) (msg : Str) : HResult :=
  let st := setCase st0 msg ("INFO".data)
  if !(matchINFO msg) then (st, [], Except.error (HErr.httpError 400))
  else
    match cb.onInfoRet with
    | none =>
      if truthyOpt st.matchid then
        (st, [], Except.ok (some (response st ("BUSY".data))))
      else
        (st, [], Except.ok (some (response st ("AVAILABLE".data))))
    | some ret =>
      if ret.isEmpty then (st, [CbEvent.onInfo], Except.error HErr.internal)
      else (st, [CbEvent.onInfo, CbEvent.onInfo],
            Except.ok (some (response st ret)))

/-- handle_PREVIEW: no state change beyond the case flag; the optional
callback receives the GDL; the reply is always DONE. -/
def handle_PREVIEW (cb : Callbacks) (st0 : HState) (msg : Str) : HResult :=
  let st := setCase st0 msg ("PREVIEW".data)
  match matchPREVIEW msg with
  | none => (st, [], Except.error (HErr.httpError 400))
  | some (gdl, _pclock) =>
    (st, (if cb.hasPreview then [CbEvent.onPreview gdl] else []),
     Except.ok (some (response st ("DONE".data))))

/-- _handle_POST: dispatch on the SEARCH_* recognisers in source order; an
unrecognised message raises the 400 "Invalid GGP message" error. -/
def handlePOST (cb : Callbacks) (st : HState) (msg : Str) : HResult :=
  if keywordHit ("START".data) msg then handle_START cb st msg
  else if keywordHit ("PLAY".data) msg then handle_PLAY cb st msg
  else if keywordHit ("STOP".data) msg then handle_STOP cb st msg
  else if keywordHit ("INFO".data) msg then handle_INFO cb st msg
  else if keywordHit ("ABORT".data) msg then handle_ABORT cb st msg
  else if keywordHit ("PREVIEW".data) msg then handle_PREVIEW cb st msg
  else (st, [], Except.error (HErr.httpError 400))

/-- _is_good_connection: PREVIEW and START always pass; otherwise a
parseable matchid (from the SPS pattern or, failing that, the ABORT
pattern) must equal the session's current matchid; a message with no
parseable matchid passes. -/
def isGoodConnection (st : HState) (msg : Str) : Bool :=
  if keywordHit ("PREVIEW".data) msg then true
  else if keywordHit ("START".data) msg then true
  else
    match (matchSPS msg).orElse (fun _ => matchABORT msg) with
    | some mid =>
      if !mid.isEmpty then decide (st.matchid = some mid) else true
    | none => true

/-- One inbound HTTP request, as seen by _get_http_post: the method, the
parsed CONTENT_LENGTH header (none when absent or unparseable) and the
request body stream. -/
structure Request where
  method : Str
  contentLength : Option Int
  bodyStream : Str

/-- _get_http_post: a non-POST raises the 405 error, a missing or
unparseable CONTENT_LENGTH raises 400 (via the broad except), a length of
at most five raises 400, and otherwise the body is read up to the header
length. -/
def getHttpPost (req : Request) : Except HErr Str :=
  if req.method ≠ "POST".data then Except.error (HErr.httpError 405)
  else
    match req.contentLength with
    | none => Except.error (HErr.httpError 400)
    | some n =>
      if n ≤ 5 then Except.error (HErr.httpError 400)
      else Except.ok (req.bodyStream.take n.toNat)

/-- What the transport observes: the status line's code, the body (none
when the call raised before returning a body), and whether an exception was
re-raised through the WSGI call after the 500 status was emitted. -/
structure HttpResponse where
  status : Nat
  body : Option Str
  raised : Bool
deriving DecidableEq

/-- The __call__ entry point for one connection (with no concurrent
connections the two queues are trivial).  Any failure of _get_http_post is
answered by _app_bad with the fixed status 400 and an empty body; a bad
connection gets the same; otherwise _app_normal runs _handle_POST and maps
its outcome to 200, to the HTTPErrorResponse status, or to 500 plus a
re-raise. -/
def handleConnection (cb : Callbacks) (st : HState) (req : Request) :
    HState × List CbEvent × HttpResponse :=
  match getHttpPost req with
  | Except.error _ => (st, [], { status := 400, body := some [], raised := false })
  | Except.ok msg =>
    if !isGoodConnection st msg then
      (st, [], { status := 400, body := some [], raised := false })
    else
      match handlePOST cb st msg with
      | (st2, evs, Except.ok body) =>
        (st2, evs, { status := 200, body := body, raised := false })
      | (st2, evs, Except.error (HErr.httpError code)) =>
        (st2, evs, { status := code, body := some [], raised := false })
      | (st2, evs, Except.error HErr.internal) =>
        (st2, evs, { status := 500, body := none, raised := true })

/-- Fold a sequence of requests through the handler, keeping the state. -/
def runRequests (cb : Callbacks) (st : HState) : List Request → HState
  | [] => st
  | r :: rs => runRequests cb (handleConnection cb st r).1 rs

/- ------------------------------------------------------------------
An abstract transition system for the admission sequencer of __call__
(claim C9).  Each connection is one thread of control running the body of
__call__: on arrival it appends a wait token to the all-connections queue;
it may take a step past a wait only while it is the head of the queue it
waits on (an AsyncResult is set exactly when its owner becomes the new
head, and once set it stays set); while at the head of the all-queue it
computes _is_good_connection (modelled as a nondeterministically chosen
Boolean, since the ordering property must hold whatever the shared state
says), appends itself to the good-connections queue if good, then pops the
all-queue; a good connection then executes _app_normal while at the head
of the good queue and finally pops it.  Steps of different connections
interleave arbitrarily.  The ghost sequences record the order of arrivals
at the admission queue, of good-queue insertions, and of _app_normal
executions (the order in which effects hit the match state machine).
------------------------------------------------------------------- -/

inductive CStatus where
  | idle
  | inAll
  | tested (good : Bool)
  | enqd
  | inGood
  | doneBad
  | processed
  | doneGood
deriving DecidableEq

structure Sys (n : Nat) where
  status : Fin n → CStatus
  allQ : List (Fin n)
  goodQ : List (Fin n)
  arrSeq : List (Fin n)
  enqSeq : List (Fin n)
  procSeq : List (Fin n)

def initSys (n : Nat) : Sys n :=
  { status := fun _ => CStatus.idle, allQ := [], goodQ := [],
    arrSeq := [], enqSeq := [], procSeq := [] }

def setStatus {n : Nat} (f : Fin n → CStatus) (i : Fin n) (c : CStatus) :
    Fin n → CStatus :=
  fun j => if j = i then c else f j

inductive Step {n : Nat} : Sys n → Sys n → Prop where
  | arrive (s : Sys n) (i : Fin n) (h : s.status i = CStatus.idle) :
      Step s { s with
                 status := setStatus s.status i CStatus.inAll,
                 allQ := s.allQ ++ [i],
                 arrSeq := s.arrSeq ++ [i] }
  | test (s : Sys n) (i : Fin n) (g : Bool)
      (h : s.status i = CStatus.inAll) (hh : s.allQ.head? = some i) :
      Step s { s with
                 status := setStatus s.status i (CStatus.tested g) }
  | enqGood (s : Sys n) (i : Fin n)
      (h : s.status i = CStatus.tested true) (hh : s.allQ.head? = some i) :
      Step s { s with
                 status := setStatus s.status i CStatus.enqd,
                 goodQ := s.goodQ ++ [i],
                 enqSeq := s.enqSeq ++ [i] }
  | popAllBad (s : Sys n) (i : Fin n)
      (h : s.status i = CStatus.tested false) (hh : s.allQ.head? = some i) :
      Step s { s with
                 status := setStatus s.status i CStatus.doneBad,
                 allQ := s.allQ.tail }
  | popAllGood (s : Sys n) (i : Fin n)
      (h : s.status i = CStatus.enqd) (hh : s.allQ.head? = some i) :
      Step s { s with
                 status := setStatus s.status i CStatus.inGood,
                 allQ := s.allQ.tail }
  | process (s : Sys n) (i : Fin n)
      (h : s.status i = CStatus.inGood) (hh : s.goodQ.head? = some i) :
      Step s { s with
                 status := setStatus s.status i CStatus.processed,
                 procSeq := s.procSeq ++ [i] }
  | popGood (s : Sys n) (i : Fin n)
      (h : s.status i = CStatus.processed) (hh : s.goodQ.head? = some i) :
      Step s { s with
                 status := setStatus s.status i CStatus.doneGood,
                 goodQ := s.goodQ.tail }

inductive Reachable {n : Nat} : Sys n → Prop where
  | init : Reachable (initSys n)
  | step {s s2 : Sys n} : Reachable s → Step s s2 → Reachable s2

/-- i occurs strictly before j in the sequence l. -/
def seqBefore {n : Nat} (l : List (Fin n)) (i j : Fin n) : Prop :=
  List.Sublist [i, j] l

instance seqBeforeDec {n : Nat} (l : List (Fin n)) (i j : Fin n) :
    Decidable (seqBefore l i j) :=
  inferInstanceAs (Decidable (List.Sublist [i, j] l))

/-- Statuses of connections currently in the all-connections queue. -/
def inAllStatus : CStatus → Bool
  | CStatus.inAll => true
  | CStatus.tested _ => true
  | CStatus.enqd => true
  | _ => false

/-- Statuses of connections currently in the good-connections queue. -/
def inGoodStatus : CStatus → Bool
  | CStatus.enqd => true
  | CStatus.inGood => true
  | CStatus.processed => true
  | _ => false

/-- Statuses of connections that have been admitted to the good queue. -/
def enqSideStatus : CStatus → Bool
  | CStatus.enqd => true
  | CStatus.inGood => true
  | CStatus.processed => true
  | CStatus.doneGood => true
  | _ => false

/-- Statuses of connections whose _app_normal has executed. -/
def procSideStatus : CStatus → Bool
  | CStatus.processed => true
  | CStatus.doneGood => true
  | _ => false

/-- Statuses a connection can only have while it is the head of the
all-connections queue. -/
def atHead : CStatus → Bool
  | CStatus.tested _ => true
  | CStatus.enqd => true
  | _ => false

/-- The inductive invariant of the admission sequencer. -/
structure SysInv {n : Nat} (s : Sys n) : Prop where
  memArr : ∀ i, i ∈ s.arrSeq ↔ s.status i ≠ CStatus.idle
  memAll : ∀ i, i ∈ s.allQ ↔ inAllStatus (s.status i) = true
  memGood : ∀ i, i ∈ s.goodQ ↔ inGoodStatus (s.status i) = true
  memEnq : ∀ i, i ∈ s.enqSeq ↔ enqSideStatus (s.status i) = true
  memProc : ∀ i, i ∈ s.procSeq ↔ procSideStatus (s.status i) = true
  arrNodup : s.arrSeq.Nodup
  enqNodup : s.enqSeq.Nodup
  procNodup : s.procSeq.Nodup
  arrSplit : ∃ p, s.arrSeq = p ++ s.allQ ∧
    ∀ i ∈ p, inAllStatus (s.status i) = false
  enqSplit : ∃ q, s.enqSeq = q ++ s.goodQ ∧
    ∀ i ∈ q, s.status i = CStatus.doneGood
  headAll : ∀ i, atHead (s.status i) = true → s.allQ.head? = some i
  headGood : ∀ i, s.status i = CStatus.processed → s.goodQ.head? = some i
  enqRespArr : ∀ i j, seqBefore s.enqSeq i j → seqBefore s.arrSeq i j
  procRespEnq : ∀ i j, seqBefore s.procSeq i j → seqBefore s.enqSeq i j
  procClosed : ∀ i j, seqBefore s.enqSeq i j →
    procSideStatus (s.status j) = true → procSideStatus (s.status i) = true

/- ------------------------------------------------------------------
Concrete fixtures used by counterexamples and witnesses.
------------------------------------------------------------------- -/

/-- A trivial callback assignment (the callbacks' return values). -/
def exCallbacks : Callbacks :=
  { onPlayRet := fun _ => "noop".data, onPlay2Ret := fun _ _ => "noop".data,
    onInfoRet := none, hasPreview := false }

/-- A POST request carrying the given body. -/
def reqOf (s : Str) : Request :=
  { method := "POST".data, contentLength := some (Int.ofNat s.length),
    bodyStream := s }

/-- A handler state in the middle of match m1 with the single role r. -/
def exActive (pv : Protocol) : HState :=
  { protocolVersion := pv, uppercase := true, gdl2Turn := 0,
    matchid := some ("m1".data), playclock := some 5, startclock := some 10,
    roles := [SExp.atom ("r".data)] }

/- ------------------------------------------------------------------
END OF DEFINITIONS.  Theorems follow.
------------------------------------------------------------------- -/

theorem flushTok_ne {acc : Str} (h : acc ≠ []) (ts : List Tok) :
    flushTok acc ts = Tok.atom acc.reverse :: ts := by
  cases acc with
  | nil => exact absurd rfl h
  | cons c a => rfl

theorem isTokChar_spec {c : Char} (h : isTokChar c = true) :
    (c == '(') = false ∧ (c == '^') = false ∧ (c == ')') = false ∧ isWS c = false := by
  simp only [isTokChar, Bool.not_eq_eq_eq_not, Bool.not_true, Bool.or_eq_false_iff] at h
  exact ⟨h.1.1.1, h.1.1.2, h.1.2, h.2⟩

theorem tokenizeAux_run (a : Str) (h : ∀ c ∈ a, isTokChar c = true) :
    ∀ acc rest, tokenizeAux (a ++ rest) acc = tokenizeAux rest (a.reverse ++ acc) := by
  induction a with
  | nil => intro acc rest; simp
  | cons c a ih =>
    intro acc rest
    have hc := h c (by simp)
    obtain ⟨h1, h2, h3, h4⟩ := isTokChar_spec hc
    have e1 : tokenizeAux (c :: (a ++ rest)) acc =
        tokenizeAux (a ++ rest) (c :: acc) := by
      simp [tokenizeAux, h1, h3, hc]
    show tokenizeAux (c :: (a ++ rest)) acc = _
    rw [e1, ih (fun d hd => h d (by simp [hd])) (c :: acc) rest]
    simp

theorem tokenizeAux_flush {acc : Str} (hacc : acc ≠ []) :
    ∀ rest, headNonTok rest →
    tokenizeAux rest acc = Tok.atom acc.reverse :: tokenizeAux rest [] := by
  intro rest hrest
  cases rest with
  | nil =>
    show flushTok acc [] = Tok.atom acc.reverse :: flushTok [] []
    rw [flushTok_ne hacc]
    rfl
  | cons d r =>
    have hd : isTokChar d = false := hrest
    show tokenizeAux (d :: r) acc = Tok.atom acc.reverse :: tokenizeAux (d :: r) []
    by_cases h1 : (d == '(') = true
    · simp only [tokenizeAux, h1, if_true, flushTok_ne hacc]
      rfl
    · by_cases h2 : (d == ')') = true
      · simp only [tokenizeAux, h1, h2, if_true, if_false, flushTok_ne hacc,
          Bool.false_eq_true]
        rfl
      · simp only [tokenizeAux, h1, h2, hd, if_false, flushTok_ne hacc,
          Bool.false_eq_true]
        rfl

theorem tokenize_serList : ∀ (xs : List SExp),
    (∀ x ∈ xs, wfSExp x = true →
      ∀ rest, headNonTok rest →
      tokenizeAux (ser x ++ rest) [] = sexpToks x ++ tokenizeAux rest []) →
    wfList xs = true →
    ∀ tail, headNonTok tail →
    tokenizeAux (serList xs ++ tail) [] = sexpToksList xs ++ tokenizeAux tail [] := by
  intro xs
  induction xs with
  | nil => intro _ _ tail _; simp [serList, sexpToksList]
  | cons x xs ih =>
    intro hx hwf tail ht
    have hwx : wfSExp x = true ∧ wfList xs = true := by
      simpa [wfList, Bool.and_eq_true] using hwf
    cases xs with
    | nil =>
      simp only [serList, sexpToksList, List.append_nil]
      exact hx x (by simp) hwx.1 tail ht
    | cons y ys =>
      have hmid : headNonTok (' ' :: (serList (y :: ys) ++ tail)) := by
        show isTokChar ' ' = false
        decide
      have hstep : tokenizeAux (' ' :: (serList (y :: ys) ++ tail)) [] =
          tokenizeAux (serList (y :: ys) ++ tail) [] := by
        show flushTok [] _ = _
        rfl
      have hassoc : serList (x :: y :: ys) ++ tail =
          ser x ++ (' ' :: (serList (y :: ys) ++ tail)) := by
        simp [serList]
      rw [hassoc, hx x (by simp) hwx.1 _ hmid, hstep,
        ih (fun z hz => hx z (by simp [hz])) hwx.2 tail ht]
      simp [sexpToksList]

theorem tokenize_ser : ∀ (x : SExp), wfSExp x = true →
    ∀ rest, headNonTok rest →
    tokenizeAux (ser x ++ rest) [] = sexpToks x ++ tokenizeAux rest [] := by
  intro x
  induction x using SExp.myInduction with
  | hatom a =>
    intro hwf rest hrest
    have hwf2 : a.isEmpty = false ∧ a.all isTokChar = true := by
      simpa [wfSExp, Bool.and_eq_true] using hwf
    have hne : a ≠ [] := by
      cases a with
      | nil => simp at hwf2
      | cons c a2 => simp
    have hall : ∀ c ∈ a, isTokChar c = true := by
      intro c hc; exact List.all_eq_true.mp hwf2.2 c hc
    show tokenizeAux (a ++ rest) [] = [Tok.atom a] ++ tokenizeAux rest []
    rw [tokenizeAux_run a hall [] rest, List.append_nil,
      tokenizeAux_flush (by simpa using hne) rest hrest]
    simp
  | hlist xs ih =>
    intro hwf rest hrest
    have hassoc : ser (SExp.list xs) ++ rest =
        '(' :: (serList xs ++ (')' :: rest)) := by
      show ('(' :: serList xs ++ [')']) ++ rest = _
      simp
    rw [hassoc]
    have hstep : tokenizeAux ('(' :: (serList xs ++ (')' :: rest))) [] =
        Tok.lpar :: tokenizeAux (serList xs ++ (')' :: rest)) [] := by
      show flushTok [] _ = _
      rfl
    rw [hstep]
    have hwl : wfList xs = true := by simpa [wfSExp] using hwf
    have hclose : headNonTok (')' :: rest) := by
      show isTokChar ')' = false
      decide
    rw [tokenize_serList xs ih hwl (')' :: rest) hclose]
    have hrp : tokenizeAux (')' :: rest) [] = Tok.rpar :: tokenizeAux rest [] := by
      show flushTok [] _ = _
      rfl
    rw [hrp]
    show _ = (Tok.lpar :: sexpToksList xs ++ [Tok.rpar]) ++ tokenizeAux rest []
    simp

theorem runToks_sexpList : ∀ (xs : List SExp),
    (∀ x ∈ xs, ∀ ts stack out,
      runToks (sexpToks x ++ ts) stack out = runToks ts stack (out ++ [x])) →
    ∀ ts stack out,
    runToks (sexpToksList xs ++ ts) stack out = runToks ts stack (out ++ xs) := by
  intro xs
  induction xs with
  | nil => intro _ ts stack out; simp [sexpToksList]
  | cons x xs ih =>
    intro h ts stack out
    have hassoc : sexpToksList (x :: xs) ++ ts =
        sexpToks x ++ (sexpToksList xs ++ ts) := by
      simp [sexpToksList]
    rw [hassoc, h x (by simp), ih (fun z hz => h z (by simp [hz]))]
    simp

theorem runToks_sexp : ∀ (x : SExp), ∀ ts stack out,
    runToks (sexpToks x ++ ts) stack out = runToks ts stack (out ++ [x]) := by
  intro x
  induction x using SExp.myInduction with
  | hatom a => intro ts stack out; rfl
  | hlist xs ih =>
    intro ts stack out
    have hassoc : sexpToks (SExp.list xs) ++ ts =
        Tok.lpar :: (sexpToksList xs ++ (Tok.rpar :: ts)) := by
      show (Tok.lpar :: sexpToksList xs ++ [Tok.rpar]) ++ ts = _
      simp
    rw [hassoc]
    show runToks (sexpToksList xs ++ (Tok.rpar :: ts)) (out :: stack) [] = _
    rw [runToks_sexpList xs ih (Tok.rpar :: ts) (out :: stack) []]
    show runToks ts stack (out ++ [SExp.list ([] ++ xs)]) = _
    simp

theorem exp_to_sexp_serList : ∀ (xs : List SExp),
    (∀ x ∈ xs, wfSExp x = true → exp_to_sexp x = Except.ok (ser x)) →
    wfList xs = true →
    ∃ ss, exp_to_sexp_list xs = Except.ok ss ∧ joinSpace ss = serList xs := by
  intro xs
  induction xs with
  | nil => intro _ _; exact ⟨[], rfl, rfl⟩
  | cons x xs ih =>
    intro hx hwf
    have hwx : wfSExp x = true ∧ wfList xs = true := by
      simpa [wfList, Bool.and_eq_true] using hwf
    obtain ⟨ss, hss, hjs⟩ := ih (fun z hz => hx z (by simp [hz])) hwx.2
    refine ⟨ser x :: ss, ?_, ?_⟩
    · show exp_to_sexp_list (x :: xs) = _
      rw [exp_to_sexp_list, hx x (by simp) hwx.1, hss]
    · cases xs with
      | nil =>
        cases ss with
        | nil => rfl
        | cons s2 ss2 => exact absurd hss (by simp [exp_to_sexp_list])
      | cons y ys =>
        cases ss with
        | nil =>
          exfalso
          rw [exp_to_sexp_list] at hss
          cases h0 : exp_to_sexp y with
          | error e => rw [h0] at hss; simp at hss
          | ok s0 =>
            rw [h0] at hss
            cases h1 : exp_to_sexp_list ys with
            | error e => rw [h1] at hss; simp at hss
            | ok ss0 => rw [h1] at hss; simp at hss
        | cons s2 ss2 =>
          show (ser x ++ ' ' :: joinSpace (s2 :: ss2)) = serList (x :: y :: ys)
          rw [hjs]
          rfl

theorem exp_to_sexp_ser : ∀ (x : SExp), wfSExp x = true →
    exp_to_sexp x = Except.ok (ser x) := by
  intro x
  induction x using SExp.myInduction with
  | hatom a =>
    intro hwf
    have hwf2 : a.isEmpty = false ∧ a.all isTokChar = true := by
      simpa [wfSExp, Bool.and_eq_true] using hwf
    have hbad : a.any badAtomChar = false := by
      rw [List.any_eq_false]
      intro c hc
      have := isTokChar_spec (List.all_eq_true.mp hwf2.2 c hc)
      simp [badAtomChar, this.1, this.2.2.1, this.2.2.2]
    show (if a.any badAtomChar then Except.error () else Except.ok a) = _
    rw [hbad]
    rfl
  | hlist xs ih =>
    intro hwf
    have hwl : wfList xs = true := by simpa [wfSExp] using hwf
    obtain ⟨ss, hss, hjs⟩ := exp_to_sexp_serList xs ih hwl
    show (match exp_to_sexp_list xs with
      | Except.error e => Except.error e
      | Except.ok ss => Except.ok ('(' :: joinSpace ss ++ [')'])) = _
    rw [hss]
    show Except.ok ('(' :: joinSpace ss ++ [')']) = Except.ok (ser (SExp.list xs))
    rw [hjs]
    rfl

theorem ser_not_all_ws (x : SExp) (h : wfSExp x = true) :
    (ser x).all isWS = false := by
  cases x with
  | atom a =>
    have hwf2 : a.isEmpty = false ∧ a.all isTokChar = true := by
      simpa [wfSExp, Bool.and_eq_true] using h
    cases a with
    | nil => simp at hwf2
    | cons c a2 =>
      have hc := isTokChar_spec (List.all_eq_true.mp hwf2.2 c (by simp))
      show (c :: a2).all isWS = false
      simp [hc.2.2.2]
  | list xs =>
    show ('(' :: serList xs ++ [')']).all isWS = false
    simp [isWS]

/-- Claim C5 counterexample: the atom a^b contains no whitespace and no
round bracket, serializes verbatim, yet parses back to the atom a because
the term regex of parse_simple_sexp also excludes the caret from tokens:
the round trip does not return the original value. -/
theorem cex_C5 :
    exp_to_sexp (SExp.atom ("a^b".data)) = Except.ok ("a^b".data)
  ∧ parse_simple_sexp ("a^b".data) = Except.ok (SExp.atom ("a".data))
  ∧ SExp.atom ("a".data) ≠ SExp.atom ("a^b".data) := by
  refine ⟨rfl, rfl, ?_⟩
  decide

/-- Claim C5 (amended): for every s-expression x built only from non-empty
atomic tokens that contain no whitespace, no round bracket, and no caret
character, parsing the serialization of x yields x again:
parse_simple_sexp of exp_to_sexp of x is x. -/
theorem claim_C5 : ∀ x : SExp, wfSExp x = true →
    ∃ s, exp_to_sexp x = Except.ok s ∧ parse_simple_sexp s = Except.ok x := by
  intro x hwf
  refine ⟨ser x, exp_to_sexp_ser x hwf, ?_⟩
  have hne := ser_not_all_ws x hwf
  have ht : tokenize (ser x) = sexpToks x := by
    have h0 := tokenize_ser x hwf [] trivial
    simpa [tokenize, tokenizeAux, flushTok] using h0
  have hr : runToks (sexpToks x) [] [] = Except.ok [x] := by
    have h1 := runToks_sexp x [] [] []
    simpa using h1
  unfold parse_simple_sexp
  rw [hne, ht, hr]
  rfl

/-- Witness for claim C5 at a concrete well-formed value. -/
theorem wit_C5 :
    wfSExp (SExp.list [SExp.atom ("a".data),
      SExp.list [SExp.atom ("bc".data)], SExp.list []]) = true
  ∧ ∃ s, exp_to_sexp (SExp.list [SExp.atom ("a".data),
      SExp.list [SExp.atom ("bc".data)], SExp.list []]) = Except.ok s
    ∧ parse_simple_sexp s = Except.ok (SExp.list [SExp.atom ("a".data),
      SExp.list [SExp.atom ("bc".data)], SExp.list []]) :=
  ⟨by decide, claim_C5 _ (by decide)⟩

/- ------------------------------------------------------------------
Keyword exclusivity: the goodness test and the dispatcher look for several
keywords at the same anchored position; a message recognised as one of
PLAY/STOP/ABORT cannot also be recognised as START or PREVIEW.
------------------------------------------------------------------- -/

theorem stripCI_cons {k : Char} {kw t r : Str} (h : stripCI (k :: kw) t = some r) :
    ∃ c t2, t = c :: t2 ∧ Char.toLower c = Char.toLower k ∧ stripCI kw t2 = some r := by
  cases t with
  | nil => simp [stripCI] at h
  | cons c t2 =>
    by_cases hc : (Char.toLower k == Char.toLower c) = true
    · refine ⟨c, t2, rfl, (beq_iff_eq.mp hc).symm, ?_⟩
      rw [stripCI, if_pos hc] at h
      exact h
    · rw [stripCI, if_neg hc] at h
      exact absurd h (by simp)

theorem stripCI_head_ne {k c : Char} {kw t2 : Str}
    (hne : (Char.toLower k == Char.toLower c) = false) :
    stripCI (k :: kw) (c :: t2) = none := by
  show (if Char.toLower k == Char.toLower c then stripCI kw t2 else none) = none
  rw [hne]
  rfl

theorem stripCI_head_eq {k c : Char} {kw t2 : Str}
    (heq : (Char.toLower k == Char.toLower c) = true) :
    stripCI (k :: kw) (c :: t2) = stripCI kw t2 := by
  show (if Char.toLower k == Char.toLower c then stripCI kw t2 else none) = _
  rw [heq]
  rfl

theorem stripCI_play_not_start {t r : Str} (h : stripCI ("PLAY".data) t = some r) :
    stripCI ("START".data) t = none := by
  obtain ⟨c, t2, ht, hc, _⟩ := stripCI_cons h
  subst ht
  exact stripCI_head_ne (by rw [hc]; decide)

theorem stripCI_play_not_preview {t r : Str} (h : stripCI ("PLAY".data) t = some r) :
    stripCI ("PREVIEW".data) t = none := by
  obtain ⟨c1, t1, ht1, hc1, h1⟩ := stripCI_cons h
  obtain ⟨c2, t2, ht2, hc2, _⟩ := stripCI_cons h1
  subst ht1; subst ht2
  have e1 : stripCI ("PREVIEW".data) (c1 :: c2 :: t2) =
      stripCI ("REVIEW".data) (c2 :: t2) :=
    stripCI_head_eq (by rw [hc1]; decide)
  rw [e1]
  exact stripCI_head_ne (by rw [hc2]; decide)

theorem stripCI_stop_not_start {t r : Str} (h : stripCI ("STOP".data) t = some r) :
    stripCI ("START".data) t = none := by
  obtain ⟨c1, t1, ht1, hc1, h1⟩ := stripCI_cons h
  obtain ⟨c2, t2, ht2, hc2, h2⟩ := stripCI_cons h1
  obtain ⟨c3, t3, ht3, hc3, _⟩ := stripCI_cons h2
  subst ht1; subst ht2; subst ht3
  have e1 : stripCI ("START".data) (c1 :: c2 :: c3 :: t3) =
      stripCI ("TART".data) (c2 :: c3 :: t3) :=
    stripCI_head_eq (by rw [hc1]; decide)
  have e2 : stripCI ("TART".data) (c2 :: c3 :: t3) =
      stripCI ("ART".data) (c3 :: t3) :=
    stripCI_head_eq (by rw [hc2]; decide)
  rw [e1, e2]
  exact stripCI_head_ne (by rw [hc3]; decide)

theorem stripCI_stop_not_play {t r : Str} (h : stripCI ("STOP".data) t = some r) :
    stripCI ("PLAY".data) t = none := by
  obtain ⟨c, t2, ht, hc, _⟩ := stripCI_cons h
  subst ht
  exact stripCI_head_ne (by rw [hc]; decide)

theorem stripCI_stop_not_preview {t r : Str} (h : stripCI ("STOP".data) t = some r) :
    stripCI ("PREVIEW".data) t = none := by
  obtain ⟨c, t2, ht, hc, _⟩ := stripCI_cons h
  subst ht
  exact stripCI_head_ne (by rw [hc]; decide)

theorem stripCI_abort_not_start {t r : Str} (h : stripCI ("ABORT".data) t = some r) :
    stripCI ("START".data) t = none := by
  obtain ⟨c, t2, ht, hc, _⟩ := stripCI_cons h
  subst ht
  exact stripCI_head_ne (by rw [hc]; decide)

theorem stripCI_abort_not_play {t r : Str} (h : stripCI ("ABORT".data) t = some r) :
    stripCI ("PLAY".data) t = none := by
  obtain ⟨c, t2, ht, hc, _⟩ := stripCI_cons h
  subst ht
  exact stripCI_head_ne (by rw [hc]; decide)

theorem stripCI_abort_not_stop {t r : Str} (h : stripCI ("ABORT".data) t = some r) :
    stripCI ("STOP".data) t = none := by
  obtain ⟨c, t2, ht, hc, _⟩ := stripCI_cons h
  subst ht
  exact stripCI_head_ne (by rw [hc]; decide)

theorem stripCI_abort_not_preview {t r : Str} (h : stripCI ("ABORT".data) t = some r) :
    stripCI ("PREVIEW".data) t = none := by
  obtain ⟨c, t2, ht, hc, _⟩ := stripCI_cons h
  subst ht
  exact stripCI_head_ne (by rw [hc]; decide)

theorem afterKeyword_some {kw msg r : Str} (h : afterKeyword kw msg = some r) :
    ∃ c r0, dropWS msg = c :: r0 ∧ (c == '(') = true ∧
      stripCI kw (dropWS r0) = some r := by
  unfold afterKeyword at h
  revert h
  cases hd : dropWS msg with
  | nil => intro h; exact absurd h (by simp)
  | cons c r0 =>
    intro h
    have h2 : (if (c == '(') = true then stripCI kw (dropWS r0) else none) =
        some r := h
    by_cases hc : (c == '(') = true
    · rw [if_pos hc] at h2
      exact ⟨c, r0, rfl, hc, h2⟩
    · rw [if_neg hc] at h2
      exact absurd h2 (by simp)

theorem afterKeyword_via {kw msg : Str} {c : Char} {r0 : Str}
    (hd : dropWS msg = c :: r0) (hc : (c == '(') = true) :
    afterKeyword kw msg = stripCI kw (dropWS r0) := by
  unfold afterKeyword
  rw [hd]
  show (if (c == '(') = true then stripCI kw (dropWS r0) else none) = _
  rw [if_pos hc]

/-- A message recognised by MATCH_PLAY is not recognised as START or
PREVIEW, and MATCH_SPS_MATCHID extracts the same matchid from it. -/
theorem matchPLAY_class {msg mid tmp : Str} (h : matchPLAY msg = some (mid, tmp)) :
    keywordHit ("PREVIEW".data) msg = false ∧
    keywordHit ("START".data) msg = false ∧
    matchSPS msg = some mid := by
  unfold matchPLAY matchPlayStopBody at h
  rw [Option.bind_eq_some] at h
  obtain ⟨r, hr, h2⟩ := h
  obtain ⟨c, r0, hd, hc, hstrip⟩ := afterKeyword_some hr
  have hstart : afterKeyword ("START".data) msg = none := by
    rw [afterKeyword_via hd hc]
    exact stripCI_play_not_start hstrip
  have hprev : afterKeyword ("PREVIEW".data) msg = none := by
    rw [afterKeyword_via hd hc]
    exact stripCI_play_not_preview hstrip
  refine ⟨by simp [keywordHit, hprev], by simp [keywordHit, hstart], ?_⟩
  rw [Option.bind_eq_some] at h2
  obtain ⟨r2, hr2, h3⟩ := h2
  rw [Option.bind_eq_some] at h3
  obtain ⟨p, hp, h4⟩ := h3
  rw [Option.bind_eq_some] at h4
  obtain ⟨payload, hpay, h5⟩ := h4
  have hps : p.1 = mid := by
    have := Option.some.inj h5
    exact congrArg Prod.fst this
  unfold matchSPS
  rw [hstart]
  show ((Option.none.orElse _).bind _) = some mid
  rw [show (Option.none.orElse (fun _ => (afterKeyword ("PLAY".data) msg).orElse
      (fun _ => afterKeyword ("STOP".data) msg))) =
      (afterKeyword ("PLAY".data) msg).orElse
      (fun _ => afterKeyword ("STOP".data) msg) from rfl]
  rw [hr]
  show ((some r).bind _) = some mid
  rw [Option.some_bind, Option.bind_eq_some]
  refine ⟨r2, hr2, ?_⟩
  rw [Option.bind_eq_some]
  refine ⟨p, hp, ?_⟩
  rw [Option.bind_eq_some]
  exact ⟨payload, hpay, by rw [hps]⟩

/-- The analogue for MATCH_STOP. -/
theorem matchSTOP_class {msg mid tmp : Str} (h : matchSTOP msg = some (mid, tmp)) :
    keywordHit ("PREVIEW".data) msg = false ∧
    keywordHit ("START".data) msg = false ∧
    matchSPS msg = some mid := by
  unfold matchSTOP matchPlayStopBody at h
  rw [Option.bind_eq_some] at h
  obtain ⟨r, hr, h2⟩ := h
  obtain ⟨c, r0, hd, hc, hstrip⟩ := afterKeyword_some hr
  have hstart : afterKeyword ("START".data) msg = none := by
    rw [afterKeyword_via hd hc]
    exact stripCI_stop_not_start hstrip
  have hplay : afterKeyword ("PLAY".data) msg = none := by
    rw [afterKeyword_via hd hc]
    exact stripCI_stop_not_play hstrip
  have hprev : afterKeyword ("PREVIEW".data) msg = none := by
    rw [afterKeyword_via hd hc]
    exact stripCI_stop_not_preview hstrip
  refine ⟨by simp [keywordHit, hprev], by simp [keywordHit, hstart], ?_⟩
  rw [Option.bind_eq_some] at h2
  obtain ⟨r2, hr2, h3⟩ := h2
  rw [Option.bind_eq_some] at h3
  obtain ⟨p, hp, h4⟩ := h3
  rw [Option.bind_eq_some] at h4
  obtain ⟨payload, hpay, h5⟩ := h4
  have hps : p.1 = mid := congrArg Prod.fst (Option.some.inj h5)
  unfold matchSPS
  rw [hstart, hplay]
  show ((Option.none.orElse _).bind _) = some mid
  rw [show (Option.none.orElse (fun _ => (Option.none.orElse
      (fun _ => afterKeyword ("STOP".data) msg)))) =
      afterKeyword ("STOP".data) msg from rfl]
  rw [hr]
  show ((some r).bind _) = some mid
  rw [Option.some_bind, Option.bind_eq_some]
  refine ⟨r2, hr2, ?_⟩
  rw [Option.bind_eq_some]
  refine ⟨p, hp, ?_⟩
  rw [Option.bind_eq_some]
  exact ⟨payload, hpay, by rw [hps]⟩

/-- The analogue for MATCH_ABORT: no START/PLAY/STOP/PREVIEW keyword, so
the SPS pattern fails and the goodness test falls back to the ABORT
pattern. -/
theorem matchABORT_class {msg mid : Str} (h : matchABORT msg = some mid) :
    keywordHit ("PREVIEW".data) msg = false ∧
    keywordHit ("START".data) msg = false ∧
    matchSPS msg = none := by
  unfold matchABORT at h
  rw [Option.bind_eq_some] at h
  obtain ⟨r, hr, _⟩ := h
  obtain ⟨c, r0, hd, hc, hstrip⟩ := afterKeyword_some hr
  have hstart : afterKeyword ("START".data) msg = none := by
    rw [afterKeyword_via hd hc]
    exact stripCI_abort_not_start hstrip
  have hplay : afterKeyword ("PLAY".data) msg = none := by
    rw [afterKeyword_via hd hc]
    exact stripCI_abort_not_play hstrip
  have hstop : afterKeyword ("STOP".data) msg = none := by
    rw [afterKeyword_via hd hc]
    exact stripCI_abort_not_stop hstrip
  have hprev : afterKeyword ("PREVIEW".data) msg = none := by
    rw [afterKeyword_via hd hc]
    exact stripCI_abort_not_preview hstrip
  refine ⟨by simp [keywordHit, hprev], by simp [keywordHit, hstart], ?_⟩
  unfold matchSPS
  rw [hstart, hplay, hstop]
  rfl

theorem grabTok_ne {s m r : Str} (h : grabTok s = some (m, r)) : m.isEmpty = false := by
  unfold grabTok at h
  by_cases he : (s.takeWhile (fun c => !isWS c)).isEmpty = true
  · rw [if_pos he] at h
    exact absurd h (by simp)
  · rw [if_neg he] at h
    cases hdw : s.dropWhile (fun c => !isWS c) with
    | nil => rw [hdw] at h; exact absurd h (by simp)
    | cons d r2 =>
      rw [hdw] at h
      have hm : s.takeWhile (fun c => !isWS c) = m :=
        congrArg Prod.fst (Option.some.inj h)
      rw [← hm]
      cases h0 : (s.takeWhile (fun c => !isWS c)).isEmpty with
      | true => exact absurd h0 he
      | false => rfl

theorem matchSPS_mid_ne {msg mid : Str} (h : matchSPS msg = some mid) :
    mid.isEmpty = false := by
  unfold matchSPS at h
  rw [Option.bind_eq_some] at h
  obtain ⟨r, _, h2⟩ := h
  rw [Option.bind_eq_some] at h2
  obtain ⟨r2, _, h3⟩ := h2
  rw [Option.bind_eq_some] at h3
  obtain ⟨p, hp, h4⟩ := h3
  rw [Option.bind_eq_some] at h4
  obtain ⟨pl, _, h5⟩ := h4
  have : p.1 = mid := Option.some.inj h5
  rw [← this]
  exact grabTok_ne (by rw [hp])

theorem matchABORT_mid_ne {msg mid : Str} (h : matchABORT msg = some mid) :
    mid.isEmpty = false := by
  unfold matchABORT at h
  rw [Option.bind_eq_some] at h
  obtain ⟨r, _, h2⟩ := h
  rw [Option.bind_eq_some] at h2
  obtain ⟨r2, _, h3⟩ := h2
  revert h3
  cases hv : (dropTrailWS r2).reverse with
  | nil => intro h3; exact absurd h3 (by simp)
  | cons c rs =>
    intro h3
    have h4 : (if (c == ')') = true then
        (if ((dropTrailWS rs.reverse).isEmpty ||
            (dropTrailWS rs.reverse).any isWS) = true then none
         else some (dropTrailWS rs.reverse))
      else none) = some mid := h3
    by_cases hc : (c == ')') = true
    · rw [if_pos hc] at h4
      by_cases hm : ((dropTrailWS rs.reverse).isEmpty ||
          (dropTrailWS rs.reverse).any isWS) = true
      · rw [if_pos hm] at h4
        exact absurd h4 (by simp)
      · rw [if_neg hm] at h4
        have hmm := Option.some.inj h4
        rw [← hmm]
        have hm2 : ((dropTrailWS rs.reverse).isEmpty ||
            (dropTrailWS rs.reverse).any isWS) = false := by
          cases h0 : ((dropTrailWS rs.reverse).isEmpty ||
              (dropTrailWS rs.reverse).any isWS) with
          | true => exact absurd h0 hm
          | false => rfl
        exact (Bool.or_eq_false_iff.mp hm2).1
    · rw [if_neg hc] at h4
      exact absurd h4 (by simp)

/-- The goodness test rejects a PLAY, STOP or ABORT message whose embedded
matchid differs from the active session's matchid. -/
theorem goodness_mismatch {st : HState} {msg mid amid : Str}
    (hst : st.matchid = some amid) (hne : mid ≠ amid)
    (h : (∃ tmp, matchPLAY msg = some (mid, tmp)) ∨
         (∃ tmp, matchSTOP msg = some (mid, tmp)) ∨
         matchABORT msg = some mid) :
    isGoodConnection st msg = false := by
  have key : keywordHit ("PREVIEW".data) msg = false ∧
      keywordHit ("START".data) msg = false ∧
      ((matchSPS msg).orElse (fun _ => matchABORT msg)) = some mid ∧
      mid.isEmpty = false := by
    rcases h with ⟨tmp, hp⟩ | ⟨tmp, hp⟩ | hp
    · obtain ⟨a, b, c⟩ := matchPLAY_class hp
      exact ⟨a, b, by rw [c]; rfl, matchSPS_mid_ne c⟩
    · obtain ⟨a, b, c⟩ := matchSTOP_class hp
      exact ⟨a, b, by rw [c]; rfl, matchSPS_mid_ne c⟩
    · obtain ⟨a, b, c⟩ := matchABORT_class hp
      refine ⟨a, b, ?_, matchABORT_mid_ne hp⟩
      rw [c]
      show matchABORT msg = some mid
      exact hp
  obtain ⟨k1, k2, k3, k4⟩ := key
  unfold isGoodConnection
  rw [k1, k2, k3]
  show (if (!mid.isEmpty) = true then decide (st.matchid = some mid) else true) =
    false
  rw [k4]
  show decide (st.matchid = some mid) = false
  have hne2 : st.matchid ≠ some mid := by
    rw [hst]
    intro hcon
    exact hne (Option.some.inj hcon).symm
  exact decide_eq_false hne2

/-- Claim C1 counterexample: with match m1 active, the message
(PLAY m2 NIL) carries a mismatching matchid; the claim says this triggers
exactly one onAbort and clears the session, but the entry point classifies
the connection as bad before any handler runs: the status is 400, no
callback fires (the trace is empty) and the session is unchanged, with
matchid still set. -/
theorem cex_C1 :
    handleConnection exCallbacks (exActive Protocol.ggp1)
      (reqOf ("(PLAY m2 NIL)".data)) =
      (exActive Protocol.ggp1, [],
        { status := 400, body := some [], raised := false })
  ∧ (exActive Protocol.ggp1).matchid = some ("m1".data) :=
  ⟨rfl, rfl⟩

/-- Claim C1 (amended): a PLAY, STOP or ABORT message processed through the
entry point while a session is active, whose embedded match identifier
differs from the active matchId, is rejected by the admission goodness
test: a 400 client error is returned, no callback (in particular not
onAbort) is invoked, and the session state is unchanged — the matchId stays
set instead of being cleared. -/
theorem claim_C1 (cb : Callbacks) (st : HState) (req : Request)
    (msg mid amid : Str)
    (hpost : getHttpPost req = Except.ok msg)
    (hst : st.matchid = some amid) (hne : mid ≠ amid)
    (hmsg : (∃ tmp, matchPLAY msg = some (mid, tmp)) ∨
            (∃ tmp, matchSTOP msg = some (mid, tmp)) ∨
            matchABORT msg = some mid) :
    handleConnection cb st req =
      (st, [], { status := 400, body := some [], raised := false }) := by
  have hbad := goodness_mismatch hst hne hmsg
  simp [handleConnection, hpost, hbad]

/-- Witness for claim C1: the concrete mismatching PLAY above satisfies
every hypothesis. -/
theorem wit_C1 :
    handleConnection exCallbacks (exActive Protocol.ggp1)
      (reqOf ("(PLAY m2 xyz)".data)) =
      (exActive Protocol.ggp1, [],
        { status := 400, body := some [], raised := false }) :=
  claim_C1 exCallbacks (exActive Protocol.ggp1) (reqOf ("(PLAY m2 xyz)".data))
    ("(PLAY m2 xyz)".data) ("m2".data) ("m1".data)
    (by rfl) (by rfl) (by decide) (Or.inl ⟨"xyz".data, by rfl⟩)

/-- Claim C2 counterexample: with match m1 active (single role r), the
validated STOP message (STOP m1 (x)) is accepted: the stop callback fires
once and the response is DONE with status 200 — but the resulting state is
the unchanged active state, whose matchId is still m1, so the session does
NOT transition to Idle as the claim asserts. -/
theorem cex_C2 :
    handleConnection exCallbacks (exActive Protocol.ggp1)
      (reqOf ("(STOP m1 (x))".data)) =
      (exActive Protocol.ggp1,
       [CbEvent.onStop [(SExp.atom ("r".data), "x".data)]],
       { status := 200, body := some ("DONE".data), raised := false })
  ∧ (exActive Protocol.ggp1).matchid = some ("m1".data) :=
  ⟨rfl, rfl⟩

/-- Claim C2 (amended): for every validated STOP accepted while a match is
active (matching matchid, action count equal to the role count, basic
variant), the stop callback is invoked exactly once with the role-to-action
mapping and the response is DONE — but the session does not transition to
Idle: handle_STOP returns the state completely unchanged, so the stored
matchId keeps its value (only ABORT or a matchid mismatch clears it). -/
theorem claim_C2 (cb : Callbacks) (st : HState) (msg mid tmp : Str)
    (actions : List Str) (p : Nat)
    (hpv : st.protocolVersion = Protocol.ggp1)
    (hm : matchSTOP msg = some (mid, tmp))
    (hmid : st.matchid = some mid)
    (hacts : parse_actions_sexp tmp = Except.ok actions)
    (hlen : actions.length = st.roles.length)
    (hpc : st.playclock = some p)
    (hkeys : (st.roles.zip actions).any (fun q => isListE q.1) = false) :
    handle_STOP cb st msg =
      (st, [CbEvent.onStop (st.roles.zip actions)],
       Except.ok (some (response st ("DONE".data)))) := by
  simp [handle_STOP, hm, hmid, hpv, hacts, hlen, hpc, hkeys]

/-- Witness for claim C2 at a concrete validated STOP. -/
theorem wit_C2 :
    handle_STOP exCallbacks (exActive Protocol.ggp1) ("(STOP m1 (y))".data) =
      (exActive Protocol.ggp1,
       [CbEvent.onStop ((exActive Protocol.ggp1).roles.zip ["y".data])],
       Except.ok (some (response (exActive Protocol.ggp1) ("DONE".data)))) :=
  claim_C2 exCallbacks (exActive Protocol.ggp1) ("(STOP m1 (y))".data)
    ("m1".data) ("(y)".data) ["y".data] 5 rfl rfl rfl rfl rfl rfl rfl

/-- Claim C4 counterexample: a request whose method is GET is answered with
status 400, not with the 405 the claim asserts: the 405 raised inside
_get_http_post is swallowed by the bare except of the entry point, which
returns the fixed 400 bad-connection response. -/
theorem cex_C4 :
    handleConnection exCallbacks (initState Protocol.ggp1)
      { method := "GET".data, contentLength := some 20,
        bodyStream := "(INFO)xxxxxxxxxxxxxx".data } =
      (initState Protocol.ggp1, [],
        { status := 400, body := some [], raised := false })
  ∧ (400 : Nat) ≠ 405 :=
  ⟨rfl, by decide⟩

/-- Claim C4 (amended): the status mapping of the entry point is: a
non-POST request receives 400 (the internally raised 405 is converted by
the catch-all around _get_http_post into the 400 bad-connection response);
a request whose body length header is at most the minimal viable length
receives 400; a recognised and successfully processed message receives
200; an unexpected internal fault produces a 500 response and is re-raised
to the transport. -/
theorem claim_C4 :
    (∀ (cb : Callbacks) (st : HState) (req : Request),
      req.method ≠ "POST".data →
      handleConnection cb st req =
        (st, [], { status := 400, body := some [], raised := false }))
  ∧ (∀ (cb : Callbacks) (st : HState) (req : Request) (n : Int),
      req.contentLength = some n → n ≤ 5 →
      handleConnection cb st req =
        (st, [], { status := 400, body := some [], raised := false }))
  ∧ (∀ (cb : Callbacks) (st : HState) (req : Request) (msg : Str)
      (st2 : HState) (evs : List CbEvent) (body : Option Str),
      getHttpPost req = Except.ok msg →
      isGoodConnection st msg = true →
      handlePOST cb st msg = (st2, evs, Except.ok body) →
      handleConnection cb st req =
        (st2, evs, { status := 200, body := body, raised := false }))
  ∧ (∀ (cb : Callbacks) (st : HState) (req : Request) (msg : Str)
      (st2 : HState) (evs : List CbEvent),
      getHttpPost req = Except.ok msg →
      isGoodConnection st msg = true →
      handlePOST cb st msg = (st2, evs, Except.error HErr.internal) →
      handleConnection cb st req =
        (st2, evs, { status := 500, body := none, raised := true })) := by
  refine ⟨?_, ?_, ?_, ?_⟩
  · intro cb st req hmethod
    have h : getHttpPost req = Except.error (HErr.httpError 405) := by
      unfold getHttpPost
      rw [if_pos hmethod]
    simp [handleConnection, h]
  · intro cb st req n hcl hn
    have h : getHttpPost req = Except.error (HErr.httpError 400) ∨
        getHttpPost req = Except.error (HErr.httpError 405) := by
      unfold getHttpPost
      by_cases hm2 : req.method ≠ "POST".data
      · rw [if_pos hm2]
        exact Or.inr rfl
      · rw [if_neg hm2, hcl]
        left
        show (if n ≤ 5 then Except.error (HErr.httpError 400)
          else Except.ok (req.bodyStream.take n.toNat)) = _
        rw [if_pos hn]
    rcases h with h | h <;> simp [handleConnection, h]
  · intro cb st req msg st2 evs body hpost hgood hrun
    simp [handleConnection, hpost, hgood, hrun]
  · intro cb st req msg st2 evs hpost hgood hrun
    simp [handleConnection, hpost, hgood, hrun]

/-- Witness for claim C4 at a concrete non-POST request. -/
theorem wit_C4 :
    handleConnection exCallbacks (initState Protocol.ggp1)
      { method := "PUT".data, contentLength := some 20,
        bodyStream := "(INFO)xxxxxxxxxxxxxx".data } =
      (initState Protocol.ggp1, [],
        { status := 400, body := some [], raised := false }) :=
  claim_C4.1 exCallbacks (initState Protocol.ggp1)
    { method := "PUT".data, contentLength := some 20,
      bodyStream := "(INFO)xxxxxxxxxxxxxx".data } (by decide)

/-- Claim C6: actions_to_sexp maps the empty list to NIL, a singleton to
the bare element, and a pair to a bracketed joined list; and
parse_actions_sexp recovers the original list in each of the three cases. -/
theorem claim_C6 :
    actions_to_sexp [] = "NIL".data
  ∧ actions_to_sexp ["a".data] = "a".data
  ∧ actions_to_sexp ["a".data, "b".data] = "(a b)".data
  ∧ parse_actions_sexp (actions_to_sexp []) = Except.ok []
  ∧ parse_actions_sexp (actions_to_sexp ["a".data]) = Except.ok ["a".data]
  ∧ parse_actions_sexp (actions_to_sexp ["a".data, "b".data]) =
      Except.ok ["a".data, "b".data] :=
  ⟨rfl, rfl, rfl, rfl, rfl, rfl⟩

/- ------------------------------------------------------------------
A NIL payload parses to the empty action list: needed for claim C7.
------------------------------------------------------------------- -/

theorem dropWhile_head_false {α : Type} {p : α → Bool} {l : List α} {a : α}
    {t : List α} (h : l.dropWhile p = a :: t) : p a = false := by
  induction l with
  | nil => simp at h
  | cons c l2 ih =>
    rw [List.dropWhile_cons] at h
    by_cases hp : p c = true
    · rw [if_pos hp] at h
      exact ih h
    · rw [if_neg hp] at h
      cases h
      cases h0 : p a with
      | true => exact absurd h0 hp
      | false => rfl

theorem ws_not_lpar {c : Char} (h : isWS c = true) : (c == '(') = false := by
  cases h0 : (c == '(') with
  | true =>
    have := beq_iff_eq.mp h0
    subst this
    exact absurd h (by decide)
  | false => rfl

theorem ws_not_rpar {c : Char} (h : isWS c = true) : (c == ')') = false := by
  cases h0 : (c == ')') with
  | true =>
    have := beq_iff_eq.mp h0
    subst this
    exact absurd h (by decide)
  | false => rfl

theorem ws_not_tok {c : Char} (h : isWS c = true) : isTokChar c = false := by
  simp [isTokChar, h]

theorem tokenizeAux_allWS_nil {r : Str} (h : r.all isWS = true) :
    tokenizeAux r [] = [] := by
  induction r with
  | nil => rfl
  | cons w r2 ih =>
    have hw : isWS w = true ∧ r2.all isWS = true := by
      simpa [List.all_cons, Bool.and_eq_true] using h
    have e1 : tokenizeAux (w :: r2) [] = tokenizeAux r2 [] := by
      simp [tokenizeAux, ws_not_lpar hw.1, ws_not_rpar hw.1, ws_not_tok hw.1,
        flushTok]
    rw [e1]
    exact ih hw.2

theorem tokenizeAux_allWS {r acc : Str} (h : r.all isWS = true) :
    tokenizeAux r acc = flushTok acc [] := by
  cases r with
  | nil => rfl
  | cons w r2 =>
    have hw : isWS w = true ∧ r2.all isWS = true := by
      simpa [List.all_cons, Bool.and_eq_true] using h
    have e1 : tokenizeAux (w :: r2) acc = flushTok acc (tokenizeAux r2 []) := by
      simp [tokenizeAux, ws_not_lpar hw.1, ws_not_rpar hw.1, ws_not_tok hw.1]
    rw [e1, tokenizeAux_allWS_nil hw.2]

theorem tokenizeAux_skipWS {w rest : Str} (h : w.all isWS = true) :
    tokenizeAux (w ++ rest) [] = tokenizeAux rest [] := by
  induction w with
  | nil => rfl
  | cons c w2 ih =>
    have hw : isWS c = true ∧ w2.all isWS = true := by
      simpa [List.all_cons, Bool.and_eq_true] using h
    have e1 : tokenizeAux (c :: (w2 ++ rest)) [] =
        tokenizeAux (w2 ++ rest) [] := by
      simp [tokenizeAux, ws_not_lpar hw.1, ws_not_rpar hw.1, ws_not_tok hw.1,
        flushTok]
    rw [List.cons_append, e1]
    exact ih hw.2

theorem nonTok_toLower_self {c : Char} (h : isTokChar c = false) :
    Char.toLower c = c := by
  have h2 : ((c == '(') || (c == '^') || (c == ')') || isWS c) = true := by
    cases h0 : ((c == '(') || (c == '^') || (c == ')') || isWS c) with
    | true => rfl
    | false =>
      have h5 : isTokChar c = true := by simp [isTokChar, h0]
      rw [h] at h5
      exact absurd h5 (by simp)
  rcases Bool.or_eq_true_iff.mp h2 with h3 | h3
  · rcases Bool.or_eq_true_iff.mp h3 with h4 | h4
    · rcases Bool.or_eq_true_iff.mp h4 with h5 | h5
      · rw [beq_iff_eq.mp h5]; decide
      · rw [beq_iff_eq.mp h5]; decide
    · rw [beq_iff_eq.mp h4]; decide
  · have h4 : c = ' ' ∨ c = '\t' ∨ c = '\n' ∨ c = '\r' ∨ c = '\x0b' ∨
        c = '\x0c' := by
      simp only [isWS, Bool.or_eq_true, beq_iff_eq] at h3
      tauto
    rcases h4 with h5 | h5 | h5 | h5 | h5 | h5 <;> (rw [h5]; decide)

theorem tokChar_of_toLower {c : Char} (h : isTokChar (Char.toLower c) = true) :
    isTokChar c = true := by
  cases h0 : isTokChar c with
  | true => rfl
  | false =>
    rw [nonTok_toLower_self h0] at h
    exact absurd h (by rw [h0]; simp)

theorem checkNIL_decomp {tmp : Str} (h : checkNIL tmp = true) :
    ∃ c1 c2 c3 r, dropWS tmp = c1 :: c2 :: c3 :: r ∧
      Char.toLower c1 = 'n' ∧ Char.toLower c2 = 'i' ∧ Char.toLower c3 = 'l' ∧
      r.all isWS = true := by
  unfold checkNIL at h
  revert h
  cases hs : stripCI ("NIL".data) (dropWS tmp) with
  | none => intro h; exact absurd h (by simp)
  | some r =>
    intro h
    obtain ⟨c1, t1, ht1, hc1, h1⟩ := stripCI_cons hs
    obtain ⟨c2, t2, ht2, hc2, h2⟩ := stripCI_cons h1
    obtain ⟨c3, t3, ht3, hc3, h3⟩ := stripCI_cons h2
    have ht4 : t3 = r := by simpa [stripCI] using h3
    refine ⟨c1, c2, c3, r, ?_, ?_, ?_, ?_, h⟩
    · rw [ht1, ht2, ht3, ht4]
    · rw [hc1]; decide
    · rw [hc2]; decide
    · rw [hc3]; decide

theorem checkNIL_parse {tmp : Str} (h : checkNIL tmp = true) :
    ∃ a, parse_simple_sexp tmp = Except.ok (SExp.atom a) ∧
      eqCI a ("NIL".data) = true := by
  obtain ⟨c1, c2, c3, r, hd, h1, h2, h3, hr⟩ := checkNIL_decomp h
  have ht1 : isTokChar c1 = true := tokChar_of_toLower (by rw [h1]; decide)
  have ht2 : isTokChar c2 = true := tokChar_of_toLower (by rw [h2]; decide)
  have ht3 : isTokChar c3 = true := tokChar_of_toLower (by rw [h3]; decide)
  have hsplit : tmp = tmp.takeWhile isWS ++ dropWS tmp :=
    (List.takeWhile_append_dropWhile isWS tmp).symm
  have htw : (tmp.takeWhile isWS).all isWS = true :=
    List.all_eq_true.mpr (fun x hx => List.mem_takeWhile_imp hx)
  have htok : tokenize tmp = [Tok.atom [c1, c2, c3]] := by
    have e0 : tokenizeAux tmp [] = tokenizeAux (dropWS tmp) [] := by
      conv_lhs => rw [hsplit]
      exact tokenizeAux_skipWS htw
    show tokenizeAux tmp [] = _
    rw [e0, hd]
    have hall : ∀ d ∈ [c1, c2, c3], isTokChar d = true := by
      intro d hd2
      rcases List.mem_cons.mp hd2 with h5 | h5
      · rw [h5]; exact ht1
      · rcases List.mem_cons.mp h5 with h6 | h6
        · rw [h6]; exact ht2
        · rcases List.mem_cons.mp h6 with h7 | h7
          · rw [h7]; exact ht3
          · exact absurd h7 (List.not_mem_nil d)
    have e1 := tokenizeAux_run [c1, c2, c3] hall [] r
    have e2 : c1 :: c2 :: c3 :: r = [c1, c2, c3] ++ r := rfl
    rw [e2, e1, tokenizeAux_allWS hr]
    simp [flushTok]
  have hc1ws : isWS c1 = false := dropWhile_head_false hd
  have hnall : tmp.all isWS = false := by
    cases h0 : tmp.all isWS with
    | false => rfl
    | true =>
      have hmem : c1 ∈ tmp := by
        have hsub := List.dropWhile_sublist (l := tmp) isWS
        refine hsub.subset ?_
        rw [show tmp.dropWhile isWS = dropWS tmp from rfl, hd]
        simp
      have h6 := List.all_eq_true.mp h0 c1 hmem
      rw [h6] at hc1ws
      exact absurd hc1ws (by simp)
  refine ⟨[c1, c2, c3], ?_, ?_⟩
  · unfold parse_simple_sexp
    rw [hnall, htok]
    rfl
  · show (List.map Char.toLower [c1, c2, c3] ==
      List.map Char.toLower ("NIL".data)) = true
    rw [List.map_cons, List.map_cons, List.map_cons, List.map_nil, h1, h2, h3]
    decide

theorem checkNIL_actions {tmp : Str} (h : checkNIL tmp = true) :
    parse_actions_sexp tmp = Except.ok [] := by
  obtain ⟨a, hp, he⟩ := checkNIL_parse h
  unfold parse_actions_sexp
  rw [hp]
  show (if eqCI a ("NIL".data) = true then Except.ok []
    else match exp_to_sexp (SExp.atom a) with
      | Except.error _ => Except.error ()
      | Except.ok s2 => Except.ok [s2]) = _
  rw [if_pos he]

/-- Claim C7: under the basic variant with an active match, (a) a PLAY
whose payload is the token NIL invokes the play callback with the EMPTY
role-to-action mapping (not a mapping with a null entry) and leaves the
state unchanged; (b) concretely, with the single role r active,
(PLAY m1 ((mark 1 1))) invokes it with the mapping [(r, "(mark 1 1)")];
(c) an action list whose length is neither zero nor the role count is
rejected with a 400 error, no callback, no state change. -/
theorem claim_C7 :
    (∀ (cb : Callbacks) (st : HState) (msg mid tmp : Str) (p : Nat),
      st.protocolVersion = Protocol.ggp1 →
      matchPLAY msg = some (mid, tmp) →
      st.matchid = some mid →
      checkNIL tmp = true →
      st.playclock = some p →
      handle_PLAY cb st msg =
        (st, [CbEvent.onPlay []],
         Except.ok (some (fixAction (cb.onPlayRet [])))))
  ∧ (∀ cb : Callbacks,
      (handle_PLAY cb (exActive Protocol.ggp1)
        ("(PLAY m1 ((mark 1 1)))".data)).2.1 =
      [CbEvent.onPlay [(SExp.atom ("r".data), "(mark 1 1)".data)]])
  ∧ (∀ (cb : Callbacks) (st : HState) (msg mid tmp : Str)
      (actions : List Str),
      st.protocolVersion = Protocol.ggp1 →
      matchPLAY msg = some (mid, tmp) →
      st.matchid = some mid →
      parse_actions_sexp tmp = Except.ok actions →
      actions.length ≠ 0 →
      actions.length ≠ st.roles.length →
      handle_PLAY cb st msg =
        (st, [], Except.error (HErr.httpError 400))) := by
  refine ⟨?_, ?_, ?_⟩
  · intro cb st msg mid tmp p hpv hm hmid hnil hpc
    have hacts := checkNIL_actions hnil
    simp [handle_PLAY, hm, hmid, hpv, hnil, hacts, hpc]
  · intro cb
    rfl
  · intro cb st msg mid tmp actions hpv hm hmid hacts hne0 hner
    by_cases hpre : (checkParenForm tmp || checkNIL tmp) = true
    · simp [handle_PLAY, hm, hmid, hpv, hpre, hacts, hne0, hner]
    · have hpre2 : (checkParenForm tmp || checkNIL tmp) = false := by
        cases h0 : (checkParenForm tmp || checkNIL tmp) with
        | true => exact absurd h0 hpre
        | false => rfl
      simp [handle_PLAY, hm, hmid, hpv, hpre2]

/-- Witness for claim C7 at a concrete NIL PLAY. -/
theorem wit_C7 :
    handle_PLAY exCallbacks (exActive Protocol.ggp1)
      ("(PLAY m1 NIL)".data) =
      (exActive Protocol.ggp1, [CbEvent.onPlay []],
       Except.ok (some (fixAction (exCallbacks.onPlayRet [])))) :=
  claim_C7.1 exCallbacks (exActive Protocol.ggp1) ("(PLAY m1 NIL)".data)
    ("m1".data) ("NIL".data) 5 rfl rfl rfl rfl rfl

/- ------------------------------------------------------------------
Claim C8: a START whose GDL declares no roles starts nothing.
------------------------------------------------------------------- -/

theorem collectRoles_no_decls : ∀ (xs : List SExp),
    (∀ x ∈ xs, isRoleDecl x = false) → (collectRoles xs).1 = [] := by
  intro xs
  induction xs with
  | nil => intro _; rfl
  | cons x rest ih =>
    intro h
    have hrest : ∀ y ∈ rest, isRoleDecl y = false :=
      fun y hy => h y (by simp [hy])
    cases x with
    | atom s =>
      show (collectRoles rest).1 = []
      exact ih hrest
    | list l =>
      match l with
      | [] => exact ih hrest
      | [a] =>
        cases a with
        | atom s => exact ih hrest
        | list l2 => exact ih hrest
      | a :: b :: c :: l3 =>
        cases a with
        | atom s => exact ih hrest
        | list l2 => exact ih hrest
      | [a, b] =>
        cases a with
        | atom s =>
          have hx : isRoleDecl (SExp.list [SExp.atom s, b]) = false :=
            h _ (by simp)
          have hrh : roleHead s = false := by
            simpa [isRoleDecl] using hx
          show (collectRoles (SExp.list [SExp.atom s, b] :: rest)).1 = []
          have e1 : collectRoles (SExp.list [SExp.atom s, b] :: rest) =
              if roleHead s then
                ((b :: (collectRoles rest).1), (collectRoles rest).2)
              else collectRoles rest := by
            show (if roleHead s then
              ((b :: (collectRoles rest).1), (collectRoles rest).2)
              else collectRoles rest) = _
            rfl
          rw [e1, if_neg (by rw [hrh]; simp)]
          exact ih hrest
        | list l2 => rfl

theorem roles_fail_of_no_decls {gdl : Str} (h : countRoleDecls gdl = 0) :
    rolesInCorrectOrder gdl = ([], false) := by
  unfold countRoleDecls at h
  unfold rolesInCorrectOrder
  revert h
  cases hp : parse_simple_sexp ('(' :: gdl ++ [')']) with
  | error e => intro _; rfl
  | ok v =>
    cases v with
    | atom a => intro _; rfl
    | list xs =>
      intro h
      have hfil : ∀ x ∈ xs, isRoleDecl x = false := by
        have h2 : xs.filter isRoleDecl = [] :=
          List.length_eq_zero.mp h
        intro x hx
        have := List.filter_eq_nil_iff.mp h2 x hx
        cases h0 : isRoleDecl x with
        | true => exact absurd h0 this
        | false => rfl
      have hcr := collectRoles_no_decls xs hfil
      show (if (collectRoles xs).2 then ((collectRoles xs).1, false)
        else if (collectRoles xs).1.isEmpty then ([], false)
        else ((collectRoles xs).1, true)) = ([], false)
      by_cases he : (collectRoles xs).2 = true
      · rw [if_pos he, hcr]
      · rw [if_neg he, if_pos (by rw [hcr]; rfl)]

/-- Counterexample to claim C8 as stated: the GDL (rolex f) contains zero
(role ...) declarations, yet handle_START on a well-formed START carrying
it creates the session (matchid set, roles non-empty), invokes onStart
exactly once and answers READY — because re_m_GDL_ROLE is applied with
re.match, a prefix match that accepts the head rolex as a role keyword
and extracts f as a role. -/
theorem cex_C8 :
    countExactRoleDecls ("(rolex f)".data) = 0
  ∧ (handle_START exCallbacks (initState Protocol.ggp1)
      ("(START m3 r ((rolex f)) 10 5)".data)).1.matchid = some ("m3".data)
  ∧ (handle_START exCallbacks (initState Protocol.ggp1)
      ("(START m3 r ((rolex f)) 10 5)".data)).1.roles =
      [SExp.atom ("f".data)]
  ∧ (handle_START exCallbacks (initState Protocol.ggp1)
      ("(START m3 r ((rolex f)) 10 5)".data)).2.1 =
      [CbEvent.onStart ("m3".data) ("r".data) ("(rolex f)".data) 5]
  ∧ (handle_START exCallbacks (initState Protocol.ggp1)
      ("(START m3 r ((rolex f)) 10 5)".data)).2.2 =
      Except.ok (some ("READY".data)) :=
  ⟨by decide, by decide, by decide, by decide, rfl⟩

/-- Claim C8 (amended): the code recognises a role declaration as any
two-element GDL child whose first element's text merely begins with the
letters role (the case-insensitive prefix match re_m_GDL_ROLE under
re.match), not the exact (role ...) keyword form, so a GDL with zero
(role ...) declarations can still start the match (see the
counterexample).  For every structurally well-formed START message whose
GDL contains zero such prefix-role children, role extraction fails, the
handler leaves the session inactive (matchId cleared, roles empty), never
invokes the onStart callback, and raises nothing: the result is a normal
return (of Python None). -/
theorem claim_C8 (cb : Callbacks) (st : HState) (msg mid role gdl : Str)
    (sc pc : Nat)
    (hm : matchSTART msg = some (mid, role, gdl, sc, pc))
    (hroles : countRoleDecls gdl = 0) :
    (rolesInCorrectOrder gdl).2 = false
  ∧ (handle_START cb st msg).1.matchid = none
  ∧ (handle_START cb st msg).1.roles = []
  ∧ (handle_START cb st msg).2.1 = []
  ∧ (handle_START cb st msg).2.2 = Except.ok none := by
  have hr := roles_fail_of_no_decls hroles
  refine ⟨by rw [hr], ?_, ?_, ?_, ?_⟩
  all_goals simp [handle_START, hm, hr]

/-- Witness for claim C8 at a concrete roleless START. -/
theorem wit_C8 :
    (rolesInCorrectOrder ("(nothing here)".data)).2 = false
  ∧ (handle_START exCallbacks (initState Protocol.ggp1)
      ("(START m3 r ((nothing here)) 10 5)".data)).1.matchid = none
  ∧ (handle_START exCallbacks (initState Protocol.ggp1)
      ("(START m3 r ((nothing here)) 10 5)".data)).1.roles = []
  ∧ (handle_START exCallbacks (initState Protocol.ggp1)
      ("(START m3 r ((nothing here)) 10 5)".data)).2.1 = []
  ∧ (handle_START exCallbacks (initState Protocol.ggp1)
      ("(START m3 r ((nothing here)) 10 5)".data)).2.2 = Except.ok none :=
  claim_C8 exCallbacks (initState Protocol.ggp1)
    ("(START m3 r ((nothing here)) 10 5)".data)
    ("m3".data) ("r".data) ("(nothing here)".data) 10 5 rfl rfl

/-- Claim C10: under the GDL-II variant, handle_PLAY invokes the on_play2
callback BEFORE validating the embedded turn number: a structurally
well-formed GDL-II PLAY with matching matchid always produces exactly one
onPlay2 invocation; when the turn number differs from the session counter
the 400 error is then raised with the counter left unchanged, and when it
matches the counter increments by one (it increments only on accepted
PLAY messages). -/
theorem claim_C10 :
    (∀ (cb : Callbacks) (st : HState) (msg mid tmp : Str) (turn : Nat)
      (la : Option Str) (obs : List Str) (p : Nat),
      st.protocolVersion = Protocol.ggp2 →
      matchPLAY msg = some (mid, tmp) →
      st.matchid = some mid →
      parse_gdl2 tmp = Except.ok (turn, la, obs) →
      st.playclock = some p →
      turn ≠ st.gdl2Turn →
      handle_PLAY cb st msg =
        (st, [CbEvent.onPlay2 la obs], Except.error (HErr.httpError 400)))
  ∧ (∀ (cb : Callbacks) (st : HState) (msg mid tmp : Str)
      (la : Option Str) (obs : List Str) (p : Nat),
      st.protocolVersion = Protocol.ggp2 →
      matchPLAY msg = some (mid, tmp) →
      st.matchid = some mid →
      parse_gdl2 tmp = Except.ok (st.gdl2Turn, la, obs) →
      st.playclock = some p →
      handle_PLAY cb st msg =
        ({ st with gdl2Turn := st.gdl2Turn + 1 },
         [CbEvent.onPlay2 la obs],
         Except.ok (some (fixAction (cb.onPlay2Ret la obs))))) := by
  constructor
  · intro cb st msg mid tmp turn la obs p hpv hm hmid hgdl hpc hturn
    simp [handle_PLAY, hm, hmid, hpv, hgdl, hpc, hturn]
  · intro cb st msg mid tmp la obs p hpv hm hmid hgdl hpc
    simp [handle_PLAY, hm, hmid, hpv, hgdl, hpc]

/- ------------------------------------------------------------------
Claim C3: the session invariant over all reachable states.
------------------------------------------------------------------- -/

theorem setCase_keeps (st : HState) (msg cmd : Str) :
    (setCase st msg cmd).roles = st.roles ∧
    (setCase st msg cmd).matchid = st.matchid := by
  unfold setCase
  repeat' split
  all_goals simp

theorem rolesOk_ne {gdl : Str} (h : (rolesInCorrectOrder gdl).2 = true) :
    (rolesInCorrectOrder gdl).1 ≠ [] := by
  unfold rolesInCorrectOrder at h ⊢
  revert h
  cases hp : parse_simple_sexp ('(' :: gdl ++ [')']) with
  | error e => intro h; exact absurd h (by simp)
  | ok v =>
    cases v with
    | atom a => intro h; exact absurd h (by simp)
    | list xs =>
      intro h
      revert h
      show ((if (collectRoles xs).2 then ((collectRoles xs).1, false)
        else if (collectRoles xs).1.isEmpty then ([], false)
        else ((collectRoles xs).1, true)) : List SExp × Bool).2 = true →
        ((if (collectRoles xs).2 then ((collectRoles xs).1, false)
        else if (collectRoles xs).1.isEmpty then ([], false)
        else ((collectRoles xs).1, true)) : List SExp × Bool).1 ≠ []
      by_cases he : (collectRoles xs).2 = true
      · rw [if_pos he]
        intro h
        exact absurd h (by simp)
      · rw [if_neg he]
        by_cases hi : (collectRoles xs).1.isEmpty = true
        · rw [if_pos hi]
          intro h
          exact absurd h (by simp)
        · rw [if_neg hi]
          intro _
          show (collectRoles xs).1 ≠ []
          intro hcon
          rw [hcon] at hi
          exact hi rfl

theorem handle_START_keeps (cb : Callbacks) (st : HState) (msg : Str) :
    ((handle_START cb st msg).1.matchid = st.matchid ∧
     (handle_START cb st msg).1.roles = st.roles) ∨
    (handle_START cb st msg).1.matchid = none ∨
    (handle_START cb st msg).1.roles ≠ [] := by
  unfold handle_START
  cases hm : matchSTART msg with
  | none =>
    left
    obtain ⟨h1, h2⟩ := setCase_keeps st msg ("START".data)
    exact ⟨h2, h1⟩
  | some v =>
    obtain ⟨mid, role, gdl, sc, pc⟩ := v
    by_cases hr : (rolesInCorrectOrder gdl).2 = true
    · right; right
      simp only [hr, if_true]
      exact rolesOk_ne hr
    · right; left
      have hr2 : (rolesInCorrectOrder gdl).2 = false := by
        cases h0 : (rolesInCorrectOrder gdl).2 with
        | true => exact absurd h0 hr
        | false => rfl
      simp [hr2]

theorem handle_PLAY_keeps (cb : Callbacks) (st : HState) (msg : Str) :
    (handle_PLAY cb st msg).1.roles = st.roles ∧
    ((handle_PLAY cb st msg).1.matchid = st.matchid ∨
     (handle_PLAY cb st msg).1.matchid = none) := by
  unfold handle_PLAY
  repeat' split
  all_goals simp [apply_ite]

theorem handle_STOP_keeps (cb : Callbacks) (st : HState) (msg : Str) :
    (handle_STOP cb st msg).1.roles = st.roles ∧
    ((handle_STOP cb st msg).1.matchid = st.matchid ∨
     (handle_STOP cb st msg).1.matchid = none) := by
  unfold handle_STOP
  repeat' split
  all_goals (try (cases st.playclock))
  all_goals simp [apply_ite]

theorem handle_ABORT_keeps (cb : Callbacks) (st : HState) (msg : Str) :
    (handle_ABORT cb st msg).1.roles = st.roles ∧
    ((handle_ABORT cb st msg).1.matchid = st.matchid ∨
     (handle_ABORT cb st msg).1.matchid = none) := by
  unfold handle_ABORT
  obtain ⟨h1, h2⟩ := setCase_keeps st msg ("ABORT".data)
  repeat' split
  all_goals simp [apply_ite, h1, h2]

theorem handle_INFO_keeps (cb : Callbacks) (st : HState) (msg : Str) :
    (handle_INFO cb st msg).1.roles = st.roles ∧
    ((handle_INFO cb st msg).1.matchid = st.matchid ∨
     (handle_INFO cb st msg).1.matchid = none) := by
  unfold handle_INFO
  obtain ⟨h1, h2⟩ := setCase_keeps st msg ("INFO".data)
  repeat' split
  all_goals simp [apply_ite, h1, h2]

theorem handle_PREVIEW_keeps (cb : Callbacks) (st : HState) (msg : Str) :
    (handle_PREVIEW cb st msg).1.roles = st.roles ∧
    ((handle_PREVIEW cb st msg).1.matchid = st.matchid ∨
     (handle_PREVIEW cb st msg).1.matchid = none) := by
  unfold handle_PREVIEW
  obtain ⟨h1, h2⟩ := setCase_keeps st msg ("PREVIEW".data)
  repeat' split
  all_goals simp [h1, h2]

theorem handlePOST_inv (cb : Callbacks) (st : HState) (msg : Str)
    (h : st.matchid ≠ none → st.roles ≠ []) :
    (handlePOST cb st msg).1.matchid ≠ none →
    (handlePOST cb st msg).1.roles ≠ [] := by
  have keep : ∀ st2 : HState,
      (st2.roles = st.roles ∧ (st2.matchid = st.matchid ∨ st2.matchid = none)) →
      (st2.matchid ≠ none → st2.roles ≠ []) := by
    rintro st2 ⟨hr, hm | hm⟩ hx
    · rw [hr]; apply h; rw [← hm]; exact hx
    · exact absurd hm hx
  unfold handlePOST
  repeat' split
  · rcases handle_START_keeps cb st msg with ⟨h1, h2⟩ | h1 | h1
    · intro hx
      rw [h2]
      apply h
      rw [← h1]
      exact hx
    · intro hx; exact absurd h1 hx
    · intro _; exact h1
  · exact keep _ (handle_PLAY_keeps cb st msg)
  · exact keep _ (handle_STOP_keeps cb st msg)
  · exact keep _ (handle_INFO_keeps cb st msg)
  · exact keep _ (handle_ABORT_keeps cb st msg)
  · exact keep _ (handle_PREVIEW_keeps cb st msg)
  · exact h

theorem handleConnection_inv (cb : Callbacks) (st : HState) (req : Request)
    (h : st.matchid ≠ none → st.roles ≠ []) :
    (handleConnection cb st req).1.matchid ≠ none →
    (handleConnection cb st req).1.roles ≠ [] := by
  unfold handleConnection
  split
  · exact h
  · rename_i msg heq
    split
    · exact h
    · rcases hrun : handlePOST cb st msg with ⟨st2, evs, res⟩
      have h2 := handlePOST_inv cb st msg h
      rw [hrun] at h2
      cases res with
      | ok body => exact h2
      | error e =>
        cases e with
        | httpError code => exact h2
        | internal => exact h2

/-- Claim C3 counterexample: from the initial state, a valid START followed
by a matching ABORT leaves the session inactive (matchId cleared) while
roles still holds the started match's role list: the invariant "roles is
non-empty iff a match is active" is violated in a reachable state, because
deactivation never clears roles. -/
theorem cex_C3 :
    (runRequests exCallbacks (initState Protocol.ggp1)
      [reqOf ("(START m7 r ((role robot)) 10 5)".data),
       reqOf ("(ABORT m7)".data)]).matchid = none
  ∧ (runRequests exCallbacks (initState Protocol.ggp1)
      [reqOf ("(START m7 r ((role robot)) 10 5)".data),
       reqOf ("(ABORT m7)".data)]).roles = [SExp.atom ("robot".data)]
  ∧ [SExp.atom ("robot".data)] ≠ ([] : List SExp) :=
  ⟨rfl, rfl, by decide⟩

/-- Claim C3 (amended): in every state reachable by any sequence of handled
requests from the initial state, if a match is active (matchId set) then
roles is non-empty.  The converse direction of the claimed invariant fails:
operations that deactivate the match (ABORT, a matchid mismatch) leave
roles populated with the previous match's roles, as the counterexample
shows. -/
theorem claim_C3 (cb : Callbacks) (pv : Protocol) (reqs : List Request) :
    (runRequests cb (initState pv) reqs).matchid ≠ none →
    (runRequests cb (initState pv) reqs).roles ≠ [] := by
  have aux : ∀ (rs : List Request) (st : HState),
      (st.matchid ≠ none → st.roles ≠ []) →
      ((runRequests cb st rs).matchid ≠ none →
       (runRequests cb st rs).roles ≠ []) := by
    intro rs
    induction rs with
    | nil => intro st h; exact h
    | cons r rs2 ih =>
      intro st h
      show (runRequests cb (handleConnection cb st r).1 rs2).matchid ≠ none →
        (runRequests cb (handleConnection cb st r).1 rs2).roles ≠ []
      exact ih _ (handleConnection_inv cb st r h)
  exact aux reqs (initState pv) (fun hx => absurd rfl hx)

/-- Witness for claim C3: after a concrete valid START the match is active
and the theorem yields non-empty roles. -/
theorem wit_C3 :
    (runRequests exCallbacks (initState Protocol.ggp1)
      [reqOf ("(START m8 r ((role robot)) 10 5)".data)]).roles ≠ [] :=
  claim_C3 exCallbacks Protocol.ggp1
    [reqOf ("(START m8 r ((role robot)) 10 5)".data)] (by decide)

/-- Witness for claim C10 at a concrete out-of-turn GDL-II PLAY. -/
theorem wit_C10 :
    handle_PLAY exCallbacks (exActive Protocol.ggp2)
      ("(PLAY m1 3 NIL NIL)".data) =
      (exActive Protocol.ggp2, [CbEvent.onPlay2 none []],
       Except.error (HErr.httpError 400)) :=
  claim_C10.1 exCallbacks (exActive Protocol.ggp2)
    ("(PLAY m1 3 NIL NIL)".data) ("m1".data) ("3 NIL NIL".data) 3 none [] 5
    rfl rfl rfl rfl rfl (by decide)

/- ------------------------------------------------------------------
Claim C9: the admission sequencer of __call__ applies the effects of
good connections to the match state machine in arrival order.
Generic facts about ordering within duplicate-free sequences first.
------------------------------------------------------------------- -/

theorem seqBefore_append_right {n : Nat} {l : List (Fin n)} {i j : Fin n}
    (h : seqBefore l i j) (m : List (Fin n)) : seqBefore (l ++ m) i j :=
  List.Sublist.trans h (List.sublist_append_left l m)

theorem seqBefore_snoc {n : Nat} {l : List (Fin n)} {i j k : Fin n}
    (h : seqBefore (l ++ [k]) i j) :
    seqBefore l i j ∨ (j = k ∧ i ∈ l) := by
  rcases List.sublist_append_iff.mp h with ⟨l1, l2, heq, h1, h2⟩
  cases l1 with
  | nil =>
    simp only [List.nil_append] at heq
    rw [← heq] at h2
    have := h2.length_le
    simp at this
  | cons a l1' =>
    cases l1' with
    | nil =>
      have ha : a = i := by
        have := congrArg (List.head? ·) heq
        simp at this
        exact this.symm
      have hl2 : l2 = [j] := by
        have := congrArg (List.tail ·) heq
        simp at this
        exact this.symm
      subst ha; subst hl2
      right
      constructor
      · have := List.singleton_sublist.mp h2
        simpa using this
      · exact List.singleton_sublist.mp (by simpa using h1)
    | cons b l1'' =>
      cases l1'' with
      | nil =>
        have h3 : ([i, j] : List (Fin n)) = a :: b :: l2 := by simpa using heq
        injection h3 with h4 h5
        injection h5 with h6 h7
        subst h4; subst h6
        exact Or.inl h1
      | cons c l1''' =>
        have := congrArg List.length heq
        simp at this

theorem seqBefore_of_append_mem {n : Nat} {p l2 : List (Fin n)} {i j : Fin n}
    (hi : i ∈ p) (hj : j ∈ l2) : seqBefore (p ++ l2) i j := by
  have h1 : List.Sublist [i] p := List.singleton_sublist.mpr hi
  have h2 : List.Sublist [j] l2 := List.singleton_sublist.mpr hj
  exact List.Sublist.append h1 h2

theorem seqBefore_total {n : Nat} {l : List (Fin n)} (hl : l.Nodup)
    {i j : Fin n} (hi : i ∈ l) (hj : j ∈ l) (hne : i ≠ j) :
    seqBefore l i j ∨ seqBefore l j i := by
  induction l with
  | nil => cases hi
  | cons a t ih =>
    rcases List.mem_cons.mp hi with rfl | hi2
    · have hj2 : j ∈ t := by
        rcases List.mem_cons.mp hj with h | h
        · exact absurd h.symm hne
        · exact h
      exact Or.inl (List.Sublist.cons₂ i (List.singleton_sublist.mpr hj2))
    · rcases List.mem_cons.mp hj with rfl | hj2
      · exact Or.inr (List.Sublist.cons₂ j (List.singleton_sublist.mpr hi2))
      · rcases ih (List.nodup_cons.mp hl).2 hi2 hj2 with h | h
        · exact Or.inl (List.Sublist.cons a h)
        · exact Or.inr (List.Sublist.cons a h)

theorem seqBefore_asymm {n : Nat} {l : List (Fin n)} (hl : l.Nodup)
    {i j : Fin n} (h1 : seqBefore l i j) (h2 : seqBefore l j i) : i = j := by
  induction l with
  | nil => simp [seqBefore] at h1
  | cons a t ih =>
    cases h1 with
    | cons _ h1' =>
      cases h2 with
      | cons _ h2' => exact ih (List.nodup_cons.mp hl).2 h1' h2'
      | cons₂ h2' =>
        have hj : j ∈ t := h1'.subset (by simp)
        exact absurd hj (List.nodup_cons.mp hl).1
    | cons₂ h1' =>
      cases h2 with
      | cons _ h2' =>
        have hi : i ∈ t := h2'.subset (by simp)
        exact absurd hi (List.nodup_cons.mp hl).1
      | cons₂ h2' => rfl

theorem seqBefore_irrefl {n : Nat} {l : List (Fin n)} (hl : l.Nodup)
    (i : Fin n) : ¬ seqBefore l i i := by
  intro h
  have hc := h.count_le i
  have h1 : List.count i [i, i] = 2 := by simp
  have h2 : List.count i l ≤ 1 := List.nodup_iff_count_le_one.mp hl i
  omega

/-- The invariant holds initially. -/
theorem sysInv_init (n : Nat) : SysInv (initSys n) := by
  refine ⟨?_, ?_, ?_, ?_, ?_, ?_, ?_, ?_, ?_, ?_, ?_, ?_, ?_, ?_, ?_⟩ <;>
    simp [initSys, inAllStatus, inGoodStatus, enqSideStatus, procSideStatus,
      atHead, seqBefore]

theorem setStatus_self {n : Nat} (f : Fin n → CStatus) (i : Fin n)
    (c : CStatus) : setStatus f i c i = c := by simp [setStatus]

theorem setStatus_other {n : Nat} (f : Fin n → CStatus) {i j : Fin n}
    (c : CStatus) (h : j ≠ i) : setStatus f i c j = f j := by
  simp [setStatus, h]

theorem head_some_decomp {n : Nat} {l : List (Fin n)} {a : Fin n}
    (h : l.head? = some a) : l = a :: l.tail := by
  cases l with
  | nil => simp at h
  | cons b t => simp_all

theorem head_append_left {n : Nat} {l : List (Fin n)} {a : Fin n}
    (h : l.head? = some a) (m : List (Fin n)) : (l ++ m).head? = some a := by
  rw [List.head?_append, h]
  rfl

theorem mem_of_tail_ne {n : Nat} {l : List (Fin n)} {a j : Fin n}
    (hd : l.head? = some a) (hj : j ≠ a) : j ∈ l.tail ↔ j ∈ l := by
  cases l with
  | nil => simp at hd
  | cons b t =>
    simp at hd
    subst hd
    simp [List.mem_cons, hj]

theorem procSide_enqSide {c : CStatus} (h : procSideStatus c = true) :
    enqSideStatus c = true := by
  cases c <;> simp [procSideStatus, enqSideStatus] at h ⊢

/-- Preservation of the invariant by an arrival. -/
theorem inv_arrive {n : Nat} {s s2 : Sys n} (inv : SysInv s) {i : Fin n}
    (h : s.status i = CStatus.idle)
    (e1 : s2.status = setStatus s.status i CStatus.inAll)
    (e2 : s2.allQ = s.allQ ++ [i])
    (e3 : s2.goodQ = s.goodQ)
    (e4 : s2.arrSeq = s.arrSeq ++ [i])
    (e5 : s2.enqSeq = s.enqSeq)
    (e6 : s2.procSeq = s.procSeq) : SysInv s2 := by
  have hiarr : i ∉ s.arrSeq := by simp [inv.memArr i, h]
  have hiall : i ∉ s.allQ := by simp [inv.memAll i, h, inAllStatus]
  have higood : i ∉ s.goodQ := by simp [inv.memGood i, h, inGoodStatus]
  have hienq : i ∉ s.enqSeq := by simp [inv.memEnq i, h, enqSideStatus]
  have hiproc : i ∉ s.procSeq := by simp [inv.memProc i, h, procSideStatus]
  refine ⟨?_, ?_, ?_, ?_, ?_, ?_, ?_, ?_, ?_, ?_, ?_, ?_, ?_, ?_, ?_⟩
  · intro j
    rw [e4, e1]
    by_cases hj : j = i
    · subst hj
      simp [setStatus]
    · rw [setStatus_other _ _ hj]
      simp only [List.mem_append, List.mem_singleton]
      constructor
      · rintro (h2 | h2)
        · exact (inv.memArr j).mp h2
        · exact absurd h2 hj
      · intro h2
        exact Or.inl ((inv.memArr j).mpr h2)
  · intro j
    rw [e2, e1]
    by_cases hj : j = i
    · subst hj
      simp [setStatus, inAllStatus]
    · rw [setStatus_other _ _ hj]
      simp only [List.mem_append, List.mem_singleton]
      constructor
      · rintro (h2 | h2)
        · exact (inv.memAll j).mp h2
        · exact absurd h2 hj
      · intro h2
        exact Or.inl ((inv.memAll j).mpr h2)
  · intro j
    rw [e3, e1]
    by_cases hj : j = i
    · subst hj
      simp [setStatus, higood, inGoodStatus]
    · rw [setStatus_other _ _ hj]
      exact inv.memGood j
  · intro j
    rw [e5, e1]
    by_cases hj : j = i
    · subst hj
      simp [setStatus, hienq, enqSideStatus]
    · rw [setStatus_other _ _ hj]
      exact inv.memEnq j
  · intro j
    rw [e6, e1]
    by_cases hj : j = i
    · subst hj
      simp [setStatus, hiproc, procSideStatus]
    · rw [setStatus_other _ _ hj]
      exact inv.memProc j
  · rw [e4]
    exact List.nodup_append.mpr ⟨inv.arrNodup, List.nodup_singleton i,
      List.disjoint_singleton.mpr hiarr⟩
  · rw [e5]; exact inv.enqNodup
  · rw [e6]; exact inv.procNodup
  · rcases inv.arrSplit with ⟨p, hp1, hp2⟩
    refine ⟨p, ?_, ?_⟩
    · rw [e4, e2, hp1, List.append_assoc]
    · intro j hjp
      have hji : j ≠ i := by
        intro hx; subst hx
        exact hiarr (by rw [hp1]; exact List.mem_append_left _ hjp)
      rw [e1, setStatus_other _ _ hji]
      exact hp2 j hjp
  · rcases inv.enqSplit with ⟨q, hq1, hq2⟩
    refine ⟨q, ?_, ?_⟩
    · rw [e5, e3]; exact hq1
    · intro j hjq
      have hji : j ≠ i := by
        intro hx; subst hx
        exact hienq (by rw [hq1]; exact List.mem_append_left _ hjq)
      rw [e1, setStatus_other _ _ hji]
      exact hq2 j hjq
  · intro j hj
    rw [e1] at hj
    rw [e2]
    by_cases hji : j = i
    · subst hji
      rw [setStatus_self] at hj
      simp [atHead] at hj
    · rw [setStatus_other _ _ hji] at hj
      exact head_append_left (inv.headAll j hj) [i]
  · intro j hj
    rw [e1] at hj
    rw [e3]
    by_cases hji : j = i
    · subst hji
      rw [setStatus_self] at hj
      simp at hj
    · rw [setStatus_other _ _ hji] at hj
      exact inv.headGood j hj
  · intro a b hab
    rw [e5] at hab
    rw [e4]
    exact seqBefore_append_right (inv.enqRespArr a b hab) [i]
  · intro a b hab
    rw [e6] at hab
    rw [e5]
    exact inv.procRespEnq a b hab
  · intro a b hab hb
    rw [e5] at hab
    rw [e1] at hb ⊢
    have hbenq : b ∈ s.enqSeq := hab.subset (by simp)
    have haenq : a ∈ s.enqSeq := hab.subset (by simp)
    have hbi : b ≠ i := fun hx => hienq (hx ▸ hbenq)
    have hai : a ≠ i := fun hx => hienq (hx ▸ haenq)
    rw [setStatus_other _ _ hbi] at hb
    rw [setStatus_other _ _ hai]
    exact inv.procClosed a b hab hb

/-- Preservation of the invariant by computing the goodness test at the
head of the all-connections queue. -/
theorem inv_test {n : Nat} {s s2 : Sys n} (inv : SysInv s) {i : Fin n}
    {g : Bool}
    (h : s.status i = CStatus.inAll) (hh : s.allQ.head? = some i)
    (e1 : s2.status = setStatus s.status i (CStatus.tested g))
    (e2 : s2.allQ = s.allQ) (e3 : s2.goodQ = s.goodQ)
    (e4 : s2.arrSeq = s.arrSeq) (e5 : s2.enqSeq = s.enqSeq)
    (e6 : s2.procSeq = s.procSeq) : SysInv s2 := by
  have hiall : i ∈ s.allQ := by simp [inv.memAll i, h, inAllStatus]
  have higood : i ∉ s.goodQ := by simp [inv.memGood i, h, inGoodStatus]
  have hienq : i ∉ s.enqSeq := by simp [inv.memEnq i, h, enqSideStatus]
  have hiproc : i ∉ s.procSeq := by simp [inv.memProc i, h, procSideStatus]
  refine ⟨?_, ?_, ?_, ?_, ?_, ?_, ?_, ?_, ?_, ?_, ?_, ?_, ?_, ?_, ?_⟩
  · intro j
    rw [e4, e1]
    by_cases hj : j = i
    · subst hj
      rw [setStatus_self]
      simp [inv.memArr j, h]
    · rw [setStatus_other _ _ hj]
      exact inv.memArr j
  · intro j
    rw [e2, e1]
    by_cases hj : j = i
    · subst hj
      rw [setStatus_self]
      simp [hiall, inAllStatus]
    · rw [setStatus_other _ _ hj]
      exact inv.memAll j
  · intro j
    rw [e3, e1]
    by_cases hj : j = i
    · subst hj
      rw [setStatus_self]
      simp [higood, inGoodStatus]
    · rw [setStatus_other _ _ hj]
      exact inv.memGood j
  · intro j
    rw [e5, e1]
    by_cases hj : j = i
    · subst hj
      rw [setStatus_self]
      simp [hienq, enqSideStatus]
    · rw [setStatus_other _ _ hj]
      exact inv.memEnq j
  · intro j
    rw [e6, e1]
    by_cases hj : j = i
    · subst hj
      rw [setStatus_self]
      simp [hiproc, procSideStatus]
    · rw [setStatus_other _ _ hj]
      exact inv.memProc j
  · rw [e4]; exact inv.arrNodup
  · rw [e5]; exact inv.enqNodup
  · rw [e6]; exact inv.procNodup
  · rcases inv.arrSplit with ⟨p, hp1, hp2⟩
    refine ⟨p, ?_, ?_⟩
    · rw [e4, e2]; exact hp1
    · intro j hjp
      have hji : j ≠ i := by
        intro hx; subst hx
        have h2 := hp2 j hjp
        rw [h] at h2
        simp [inAllStatus] at h2
      rw [e1, setStatus_other _ _ hji]
      exact hp2 j hjp
  · rcases inv.enqSplit with ⟨q, hq1, hq2⟩
    refine ⟨q, ?_, ?_⟩
    · rw [e5, e3]; exact hq1
    · intro j hjq
      have hji : j ≠ i := by
        intro hx; subst hx
        exact hienq (by rw [hq1]; exact List.mem_append_left _ hjq)
      rw [e1, setStatus_other _ _ hji]
      exact hq2 j hjq
  · intro j hj
    rw [e1] at hj
    rw [e2]
    by_cases hji : j = i
    · subst hji
      exact hh
    · rw [setStatus_other _ _ hji] at hj
      exact inv.headAll j hj
  · intro j hj
    rw [e1] at hj
    rw [e3]
    by_cases hji : j = i
    · subst hji
      rw [setStatus_self] at hj
      simp at hj
    · rw [setStatus_other _ _ hji] at hj
      exact inv.headGood j hj
  · intro a b hab
    rw [e5] at hab
    rw [e4]
    exact inv.enqRespArr a b hab
  · intro a b hab
    rw [e6] at hab
    rw [e5]
    exact inv.procRespEnq a b hab
  · intro a b hab hb
    rw [e5] at hab
    rw [e1] at hb ⊢
    have hbenq : b ∈ s.enqSeq := hab.subset (by simp)
    have haenq : a ∈ s.enqSeq := hab.subset (by simp)
    have hbi : b ≠ i := fun hx => hienq (hx ▸ hbenq)
    have hai : a ≠ i := fun hx => hienq (hx ▸ haenq)
    rw [setStatus_other _ _ hbi] at hb
    rw [setStatus_other _ _ hai]
    exact inv.procClosed a b hab hb

/-- Preservation of the invariant by a good connection appending itself to
the good-connections queue while at the head of the all-connections
queue. -/
theorem inv_enqGood {n : Nat} {s s2 : Sys n} (inv : SysInv s) {i : Fin n}
    (h : s.status i = CStatus.tested true) (hh : s.allQ.head? = some i)
    (e1 : s2.status = setStatus s.status i CStatus.enqd)
    (e2 : s2.allQ = s.allQ) (e3 : s2.goodQ = s.goodQ ++ [i])
    (e4 : s2.arrSeq = s.arrSeq) (e5 : s2.enqSeq = s.enqSeq ++ [i])
    (e6 : s2.procSeq = s.procSeq) : SysInv s2 := by
  have hiall : i ∈ s.allQ := by simp [inv.memAll i, h, inAllStatus]
  have higood : i ∉ s.goodQ := by simp [inv.memGood i, h, inGoodStatus]
  have hienq : i ∉ s.enqSeq := by simp [inv.memEnq i, h, enqSideStatus]
  have hiproc : i ∉ s.procSeq := by simp [inv.memProc i, h, procSideStatus]
  refine ⟨?_, ?_, ?_, ?_, ?_, ?_, ?_, ?_, ?_, ?_, ?_, ?_, ?_, ?_, ?_⟩
  · intro j
    rw [e4, e1]
    by_cases hj : j = i
    · subst hj
      rw [setStatus_self]
      simp [inv.memArr j, h]
    · rw [setStatus_other _ _ hj]
      exact inv.memArr j
  · intro j
    rw [e2, e1]
    by_cases hj : j = i
    · subst hj
      rw [setStatus_self]
      simp [hiall, inAllStatus]
    · rw [setStatus_other _ _ hj]
      exact inv.memAll j
  · intro j
    rw [e3, e1]
    by_cases hj : j = i
    · subst hj
      rw [setStatus_self]
      simp [inGoodStatus]
    · rw [setStatus_other _ _ hj]
      simp only [List.mem_append, List.mem_singleton]
      constructor
      · rintro (h2 | h2)
        · exact (inv.memGood j).mp h2
        · exact absurd h2 hj
      · intro h2
        exact Or.inl ((inv.memGood j).mpr h2)
  · intro j
    rw [e5, e1]
    by_cases hj : j = i
    · subst hj
      rw [setStatus_self]
      simp [enqSideStatus]
    · rw [setStatus_other _ _ hj]
      simp only [List.mem_append, List.mem_singleton]
      constructor
      · rintro (h2 | h2)
        · exact (inv.memEnq j).mp h2
        · exact absurd h2 hj
      · intro h2
        exact Or.inl ((inv.memEnq j).mpr h2)
  · intro j
    rw [e6, e1]
    by_cases hj : j = i
    · subst hj
      rw [setStatus_self]
      simp [hiproc, procSideStatus]
    · rw [setStatus_other _ _ hj]
      exact inv.memProc j
  · rw [e4]; exact inv.arrNodup
  · rw [e5]
    exact List.nodup_append.mpr ⟨inv.enqNodup, List.nodup_singleton i,
      List.disjoint_singleton.mpr hienq⟩
  · rw [e6]; exact inv.procNodup
  · rcases inv.arrSplit with ⟨p, hp1, hp2⟩
    refine ⟨p, ?_, ?_⟩
    · rw [e4, e2]; exact hp1
    · intro j hjp
      have hji : j ≠ i := by
        intro hx; subst hx
        have h2 := hp2 j hjp
        rw [h] at h2
        simp [inAllStatus] at h2
      rw [e1, setStatus_other _ _ hji]
      exact hp2 j hjp
  · rcases inv.enqSplit with ⟨q, hq1, hq2⟩
    refine ⟨q, ?_, ?_⟩
    · rw [e5, e3, hq1, List.append_assoc]
    · intro j hjq
      have hji : j ≠ i := by
        intro hx; subst hx
        exact hienq (by rw [hq1]; exact List.mem_append_left _ hjq)
      rw [e1, setStatus_other _ _ hji]
      exact hq2 j hjq
  · intro j hj
    rw [e1] at hj
    rw [e2]
    by_cases hji : j = i
    · subst hji
      exact hh
    · rw [setStatus_other _ _ hji] at hj
      have h2 := inv.headAll j hj
      rw [hh] at h2
      exact absurd (Option.some.inj h2).symm hji
  · intro j hj
    rw [e1] at hj
    rw [e3]
    by_cases hji : j = i
    · subst hji
      rw [setStatus_self] at hj
      simp at hj
    · rw [setStatus_other _ _ hji] at hj
      exact head_append_left (inv.headGood j hj) [i]
  · intro a b hab
    rw [e5] at hab
    rw [e4]
    rcases seqBefore_snoc hab with h2 | ⟨rfl, ha⟩
    · exact inv.enqRespArr a b h2
    · have haS : enqSideStatus (s.status a) = true := (inv.memEnq a).mp ha
      have hne : a ≠ b := fun hx => hienq (hx ▸ ha)
      have haAll : inAllStatus (s.status a) = false := by
        cases hs : s.status a with
        | enqd =>
          have h3 := inv.headAll a (by rw [hs]; rfl)
          rw [hh] at h3
          exact absurd (Option.some.inj h3).symm hne
        | inGood => rfl
        | processed => rfl
        | doneGood => rfl
        | idle => rw [hs] at haS; simp [enqSideStatus] at haS
        | inAll => rw [hs] at haS; simp [enqSideStatus] at haS
        | tested g2 => rw [hs] at haS; simp [enqSideStatus] at haS
        | doneBad => rw [hs] at haS; simp [enqSideStatus] at haS
      have haArr : a ∈ s.arrSeq := (inv.memArr a).mpr (by
        intro hx; rw [hx] at haS; simp [enqSideStatus] at haS)
      rcases inv.arrSplit with ⟨p, hp1, hp2⟩
      have hap : a ∈ p := by
        rw [hp1] at haArr
        rcases List.mem_append.mp haArr with h3 | h3
        · exact h3
        · exact absurd ((inv.memAll a).mp h3) (by rw [haAll]; simp)
      rw [hp1]
      exact seqBefore_of_append_mem hap hiall
  · intro a b hab
    rw [e6] at hab
    rw [e5]
    exact seqBefore_append_right (inv.procRespEnq a b hab) [i]
  · intro a b hab hb
    rw [e5] at hab
    rw [e1] at hb ⊢
    rcases seqBefore_snoc hab with h2 | ⟨rfl, ha⟩
    · have hbenq : b ∈ s.enqSeq := h2.subset (by simp)
      have haenq : a ∈ s.enqSeq := h2.subset (by simp)
      have hbi : b ≠ i := fun hx => hienq (hx ▸ hbenq)
      have hai : a ≠ i := fun hx => hienq (hx ▸ haenq)
      rw [setStatus_other _ _ hbi] at hb
      rw [setStatus_other _ _ hai]
      exact inv.procClosed a b h2 hb
    · rw [setStatus_self] at hb
      simp [procSideStatus] at hb

/-- Preservation of the invariant by a rejected connection leaving the
all-connections queue. -/
theorem inv_popAllBad {n : Nat} {s s2 : Sys n} (inv : SysInv s) {i : Fin n}
    (h : s.status i = CStatus.tested false) (hh : s.allQ.head? = some i)
    (e1 : s2.status = setStatus s.status i CStatus.doneBad)
    (e2 : s2.allQ = s.allQ.tail) (e3 : s2.goodQ = s.goodQ)
    (e4 : s2.arrSeq = s.arrSeq) (e5 : s2.enqSeq = s.enqSeq)
    (e6 : s2.procSeq = s.procSeq) : SysInv s2 := by
  have hdecomp : s.allQ = i :: s.allQ.tail := head_some_decomp hh
  have hiall : i ∈ s.allQ := by simp [inv.memAll i, h, inAllStatus]
  have higood : i ∉ s.goodQ := by simp [inv.memGood i, h, inGoodStatus]
  have hienq : i ∉ s.enqSeq := by simp [inv.memEnq i, h, enqSideStatus]
  have hiproc : i ∉ s.procSeq := by simp [inv.memProc i, h, procSideStatus]
  have hitail : i ∉ s.allQ.tail := by
    rcases inv.arrSplit with ⟨p, hp1, hp2⟩
    have hnd : s.allQ.Nodup := by
      have h2 := inv.arrNodup
      rw [hp1] at h2
      exact h2.of_append_right
    rw [hdecomp] at hnd
    exact (List.nodup_cons.mp hnd).1
  refine ⟨?_, ?_, ?_, ?_, ?_, ?_, ?_, ?_, ?_, ?_, ?_, ?_, ?_, ?_, ?_⟩
  · intro j
    rw [e4, e1]
    by_cases hj : j = i
    · subst hj
      rw [setStatus_self]
      simp [inv.memArr j, h]
    · rw [setStatus_other _ _ hj]
      exact inv.memArr j
  · intro j
    rw [e2, e1]
    by_cases hj : j = i
    · subst hj
      rw [setStatus_self]
      simp [hitail, inAllStatus]
    · rw [setStatus_other _ _ hj]
      rw [mem_of_tail_ne hh hj]
      exact inv.memAll j
  · intro j
    rw [e3, e1]
    by_cases hj : j = i
    · subst hj
      rw [setStatus_self]
      simp [higood, inGoodStatus]
    · rw [setStatus_other _ _ hj]
      exact inv.memGood j
  · intro j
    rw [e5, e1]
    by_cases hj : j = i
    · subst hj
      rw [setStatus_self]
      simp [hienq, enqSideStatus]
    · rw [setStatus_other _ _ hj]
      exact inv.memEnq j
  · intro j
    rw [e6, e1]
    by_cases hj : j = i
    · subst hj
      rw [setStatus_self]
      simp [hiproc, procSideStatus]
    · rw [setStatus_other _ _ hj]
      exact inv.memProc j
  · rw [e4]; exact inv.arrNodup
  · rw [e5]; exact inv.enqNodup
  · rw [e6]; exact inv.procNodup
  · rcases inv.arrSplit with ⟨p, hp1, hp2⟩
    refine ⟨p ++ [i], ?_, ?_⟩
    · rw [e4, e2, hp1, List.append_assoc]
      conv_lhs => rw [hdecomp]
      rfl
    · intro j hjp
      rcases List.mem_append.mp hjp with h2 | h2
      · have hji : j ≠ i := by
          intro hx; subst hx
          have h3 := hp2 j h2
          rw [h] at h3
          simp [inAllStatus] at h3
        rw [e1, setStatus_other _ _ hji]
        exact hp2 j h2
      · have hji : j = i := by simpa using h2
        subst hji
        rw [e1, setStatus_self]
        rfl
  · rcases inv.enqSplit with ⟨q, hq1, hq2⟩
    refine ⟨q, ?_, ?_⟩
    · rw [e5, e3]; exact hq1
    · intro j hjq
      have hji : j ≠ i := by
        intro hx; subst hx
        exact hienq (by rw [hq1]; exact List.mem_append_left _ hjq)
      rw [e1, setStatus_other _ _ hji]
      exact hq2 j hjq
  · intro j hj
    rw [e1] at hj
    rw [e2]
    by_cases hji : j = i
    · subst hji
      rw [setStatus_self] at hj
      simp [atHead] at hj
    · rw [setStatus_other _ _ hji] at hj
      have h2 := inv.headAll j hj
      rw [hh] at h2
      exact absurd (Option.some.inj h2).symm hji
  · intro j hj
    rw [e1] at hj
    rw [e3]
    by_cases hji : j = i
    · subst hji
      rw [setStatus_self] at hj
      simp at hj
    · rw [setStatus_other _ _ hji] at hj
      exact inv.headGood j hj
  · intro a b hab
    rw [e5] at hab
    rw [e4]
    exact inv.enqRespArr a b hab
  · intro a b hab
    rw [e6] at hab
    rw [e5]
    exact inv.procRespEnq a b hab
  · intro a b hab hb
    rw [e5] at hab
    rw [e1] at hb ⊢
    have hbenq : b ∈ s.enqSeq := hab.subset (by simp)
    have haenq : a ∈ s.enqSeq := hab.subset (by simp)
    have hbi : b ≠ i := fun hx => hienq (hx ▸ hbenq)
    have hai : a ≠ i := fun hx => hienq (hx ▸ haenq)
    rw [setStatus_other _ _ hbi] at hb
    rw [setStatus_other _ _ hai]
    exact inv.procClosed a b hab hb

/-- Preservation of the invariant by an admitted connection leaving the
all-connections queue. -/
theorem inv_popAllGood {n : Nat} {s s2 : Sys n} (inv : SysInv s) {i : Fin n}
    (h : s.status i = CStatus.enqd) (hh : s.allQ.head? = some i)
    (e1 : s2.status = setStatus s.status i CStatus.inGood)
    (e2 : s2.allQ = s.allQ.tail) (e3 : s2.goodQ = s.goodQ)
    (e4 : s2.arrSeq = s.arrSeq) (e5 : s2.enqSeq = s.enqSeq)
    (e6 : s2.procSeq = s.procSeq) : SysInv s2 := by
  have hdecomp : s.allQ = i :: s.allQ.tail := head_some_decomp hh
  have hiall : i ∈ s.allQ := by simp [inv.memAll i, h, inAllStatus]
  have higood : i ∈ s.goodQ := by simp [inv.memGood i, h, inGoodStatus]
  have hiproc : i ∉ s.procSeq := by simp [inv.memProc i, h, procSideStatus]
  have hitail : i ∉ s.allQ.tail := by
    rcases inv.arrSplit with ⟨p, hp1, hp2⟩
    have hnd : s.allQ.Nodup := by
      have h2 := inv.arrNodup
      rw [hp1] at h2
      exact h2.of_append_right
    rw [hdecomp] at hnd
    exact (List.nodup_cons.mp hnd).1
  rcases inv.enqSplit with ⟨q, hq1, hq2⟩
  have hnd2 := inv.enqNodup
  rw [hq1] at hnd2
  have hdisj := (List.nodup_append.mp hnd2).2.2
  refine ⟨?_, ?_, ?_, ?_, ?_, ?_, ?_, ?_, ?_, ?_, ?_, ?_, ?_, ?_, ?_⟩
  · intro j
    rw [e4, e1]
    by_cases hj : j = i
    · subst hj
      rw [setStatus_self]
      simp [inv.memArr j, h]
    · rw [setStatus_other _ _ hj]
      exact inv.memArr j
  · intro j
    rw [e2, e1]
    by_cases hj : j = i
    · subst hj
      rw [setStatus_self]
      simp [hitail, inAllStatus]
    · rw [setStatus_other _ _ hj]
      rw [mem_of_tail_ne hh hj]
      exact inv.memAll j
  · intro j
    rw [e3, e1]
    by_cases hj : j = i
    · subst hj
      rw [setStatus_self]
      simp [higood, inGoodStatus]
    · rw [setStatus_other _ _ hj]
      exact inv.memGood j
  · intro j
    rw [e5, e1]
    by_cases hj : j = i
    · subst hj
      rw [setStatus_self]
      have hienq : j ∈ s.enqSeq := by simp [inv.memEnq j, h, enqSideStatus]
      simp [hienq, enqSideStatus]
    · rw [setStatus_other _ _ hj]
      exact inv.memEnq j
  · intro j
    rw [e6, e1]
    by_cases hj : j = i
    · subst hj
      rw [setStatus_self]
      simp [hiproc, procSideStatus]
    · rw [setStatus_other _ _ hj]
      exact inv.memProc j
  · rw [e4]; exact inv.arrNodup
  · rw [e5]; exact inv.enqNodup
  · rw [e6]; exact inv.procNodup
  · rcases inv.arrSplit with ⟨p, hp1, hp2⟩
    refine ⟨p ++ [i], ?_, ?_⟩
    · rw [e4, e2, hp1, List.append_assoc]
      conv_lhs => rw [hdecomp]
      rfl
    · intro j hjp
      rcases List.mem_append.mp hjp with h2 | h2
      · have hji : j ≠ i := by
          intro hx; subst hx
          have h3 := hp2 j h2
          rw [h] at h3
          simp [inAllStatus] at h3
        rw [e1, setStatus_other _ _ hji]
        exact hp2 j h2
      · have hji : j = i := by simpa using h2
        subst hji
        rw [e1, setStatus_self]
        rfl
  · refine ⟨q, ?_, ?_⟩
    · rw [e5, e3]; exact hq1
    · intro j hjq
      have hji : j ≠ i := by
        intro hx; subst hx
        exact hdisj hjq higood
      rw [e1, setStatus_other _ _ hji]
      exact hq2 j hjq
  · intro j hj
    rw [e1] at hj
    rw [e2]
    by_cases hji : j = i
    · subst hji
      rw [setStatus_self] at hj
      simp [atHead] at hj
    · rw [setStatus_other _ _ hji] at hj
      have h2 := inv.headAll j hj
      rw [hh] at h2
      exact absurd (Option.some.inj h2).symm hji
  · intro j hj
    rw [e1] at hj
    rw [e3]
    by_cases hji : j = i
    · subst hji
      rw [setStatus_self] at hj
      simp at hj
    · rw [setStatus_other _ _ hji] at hj
      exact inv.headGood j hj
  · intro a b hab
    rw [e5] at hab
    rw [e4]
    exact inv.enqRespArr a b hab
  · intro a b hab
    rw [e6] at hab
    rw [e5]
    exact inv.procRespEnq a b hab
  · intro a b hab hb
    rw [e5] at hab
    rw [e1] at hb ⊢
    by_cases hbi : b = i
    · subst hbi
      rw [setStatus_self] at hb
      simp [procSideStatus] at hb
    · rw [setStatus_other _ _ hbi] at hb
      by_cases hai : a = i
      · subst hai
        have h2 := inv.procClosed a b hab hb
        rw [h] at h2
        simp [procSideStatus] at h2
      · rw [setStatus_other _ _ hai]
        exact inv.procClosed a b hab hb

/-- Preservation of the invariant by executing _app_normal at the head of
the good-connections queue. -/
theorem inv_process {n : Nat} {s s2 : Sys n} (inv : SysInv s) {i : Fin n}
    (h : s.status i = CStatus.inGood) (hh : s.goodQ.head? = some i)
    (e1 : s2.status = setStatus s.status i CStatus.processed)
    (e2 : s2.allQ = s.allQ) (e3 : s2.goodQ = s.goodQ)
    (e4 : s2.arrSeq = s.arrSeq) (e5 : s2.enqSeq = s.enqSeq)
    (e6 : s2.procSeq = s.procSeq ++ [i]) : SysInv s2 := by
  have hiall : i ∉ s.allQ := by simp [inv.memAll i, h, inAllStatus]
  have higood : i ∈ s.goodQ := by simp [inv.memGood i, h, inGoodStatus]
  have hiproc : i ∉ s.procSeq := by simp [inv.memProc i, h, procSideStatus]
  rcases inv.enqSplit with ⟨q, hq1, hq2⟩
  have hnd2 := inv.enqNodup
  rw [hq1] at hnd2
  have hdisj := (List.nodup_append.mp hnd2).2.2
  have hgnd : s.goodQ.Nodup := by
    have h4 := inv.enqNodup
    rw [hq1] at h4
    exact h4.of_append_right
  have hgd : s.goodQ = i :: s.goodQ.tail := head_some_decomp hh
  refine ⟨?_, ?_, ?_, ?_, ?_, ?_, ?_, ?_, ?_, ?_, ?_, ?_, ?_, ?_, ?_⟩
  · intro j
    rw [e4, e1]
    by_cases hj : j = i
    · subst hj
      rw [setStatus_self]
      simp [inv.memArr j, h]
    · rw [setStatus_other _ _ hj]
      exact inv.memArr j
  · intro j
    rw [e2, e1]
    by_cases hj : j = i
    · subst hj
      rw [setStatus_self]
      simp [hiall, inAllStatus]
    · rw [setStatus_other _ _ hj]
      exact inv.memAll j
  · intro j
    rw [e3, e1]
    by_cases hj : j = i
    · subst hj
      rw [setStatus_self]
      simp [higood, inGoodStatus]
    · rw [setStatus_other _ _ hj]
      exact inv.memGood j
  · intro j
    rw [e5, e1]
    by_cases hj : j = i
    · subst hj
      rw [setStatus_self]
      have hienq : j ∈ s.enqSeq := by simp [inv.memEnq j, h, enqSideStatus]
      simp [hienq, enqSideStatus]
    · rw [setStatus_other _ _ hj]
      exact inv.memEnq j
  · intro j
    rw [e6, e1]
    by_cases hj : j = i
    · subst hj
      rw [setStatus_self]
      simp [procSideStatus]
    · rw [setStatus_other _ _ hj]
      simp only [List.mem_append, List.mem_singleton]
      constructor
      · rintro (h2 | h2)
        · exact (inv.memProc j).mp h2
        · exact absurd h2 hj
      · intro h2
        exact Or.inl ((inv.memProc j).mpr h2)
  · rw [e4]; exact inv.arrNodup
  · rw [e5]; exact inv.enqNodup
  · rw [e6]
    exact List.nodup_append.mpr ⟨inv.procNodup, List.nodup_singleton i,
      List.disjoint_singleton.mpr hiproc⟩
  · rcases inv.arrSplit with ⟨p, hp1, hp2⟩
    refine ⟨p, ?_, ?_⟩
    · rw [e4, e2]; exact hp1
    · intro j hjp
      rw [e1]
      by_cases hji : j = i
      · subst hji
        rw [setStatus_self]
        rfl
      · rw [setStatus_other _ _ hji]
        exact hp2 j hjp
  · refine ⟨q, ?_, ?_⟩
    · rw [e5, e3]; exact hq1
    · intro j hjq
      have hji : j ≠ i := by
        intro hx; subst hx
        exact hdisj hjq higood
      rw [e1, setStatus_other _ _ hji]
      exact hq2 j hjq
  · intro j hj
    rw [e1] at hj
    rw [e2]
    by_cases hji : j = i
    · subst hji
      rw [setStatus_self] at hj
      simp [atHead] at hj
    · rw [setStatus_other _ _ hji] at hj
      exact inv.headAll j hj
  · intro j hj
    rw [e1] at hj
    rw [e3]
    by_cases hji : j = i
    · subst hji
      exact hh
    · rw [setStatus_other _ _ hji] at hj
      have h2 := inv.headGood j hj
      rw [hh] at h2
      exact absurd (Option.some.inj h2).symm hji
  · intro a b hab
    rw [e5] at hab
    rw [e4]
    exact inv.enqRespArr a b hab
  · intro a b hab
    rw [e6] at hab
    rw [e5]
    rcases seqBefore_snoc hab with h2 | ⟨rfl, ha⟩
    · exact inv.procRespEnq a b h2
    · have haS : procSideStatus (s.status a) = true := (inv.memProc a).mp ha
      have hne : a ≠ b := fun hx => hiproc (hx ▸ ha)
      have haDG : s.status a = CStatus.doneGood := by
        cases hs : s.status a with
        | processed =>
          have h3 := inv.headGood a hs
          rw [hh] at h3
          exact absurd (Option.some.inj h3).symm hne
        | doneGood => rfl
        | idle => rw [hs] at haS; simp [procSideStatus] at haS
        | inAll => rw [hs] at haS; simp [procSideStatus] at haS
        | tested g2 => rw [hs] at haS; simp [procSideStatus] at haS
        | enqd => rw [hs] at haS; simp [procSideStatus] at haS
        | inGood => rw [hs] at haS; simp [procSideStatus] at haS
        | doneBad => rw [hs] at haS; simp [procSideStatus] at haS
      have haq : a ∈ q := by
        have haenq : a ∈ s.enqSeq := (inv.memEnq a).mpr (by rw [haDG]; rfl)
        rw [hq1] at haenq
        rcases List.mem_append.mp haenq with h3 | h3
        · exact h3
        · exact absurd ((inv.memGood a).mp h3)
            (by rw [haDG]; simp [inGoodStatus])
      rw [hq1]
      exact seqBefore_of_append_mem haq higood
  · intro a b hab hb
    rw [e5] at hab
    rw [e1] at hb ⊢
    by_cases hai : a = i
    · subst hai
      rw [setStatus_self]
      rfl
    · rw [setStatus_other _ _ hai]
      by_cases hbi : b = i
      · subst hbi
        rw [hq1] at hab
        have haq : a ∈ q := by
          rcases List.sublist_append_iff.mp hab with ⟨l1, l2, heq, h1, h2⟩
          cases l1 with
          | nil =>
            simp only [List.nil_append] at heq
            rw [← heq] at h2
            rw [hgd] at h2
            cases h2 with
            | cons _ h3 =>
              have h5 : b ∈ s.goodQ.tail := h3.subset (by simp)
              rw [hgd] at hgnd
              exact absurd h5 (List.nodup_cons.mp hgnd).1
            | cons₂ h3 => exact absurd rfl hai
          | cons x l1x =>
            injection heq with hax htl
            subst hax
            exact h1.subset (by simp)
        rw [hq2 a haq]
        rfl
      · rw [setStatus_other _ _ hbi] at hb
        exact inv.procClosed a b hab hb

/-- Preservation of the invariant by a finished connection leaving the
good-connections queue. -/
theorem inv_popGood {n : Nat} {s s2 : Sys n} (inv : SysInv s) {i : Fin n}
    (h : s.status i = CStatus.processed) (hh : s.goodQ.head? = some i)
    (e1 : s2.status = setStatus s.status i CStatus.doneGood)
    (e2 : s2.allQ = s.allQ) (e3 : s2.goodQ = s.goodQ.tail)
    (e4 : s2.arrSeq = s.arrSeq) (e5 : s2.enqSeq = s.enqSeq)
    (e6 : s2.procSeq = s.procSeq) : SysInv s2 := by
  have hgd : s.goodQ = i :: s.goodQ.tail := head_some_decomp hh
  have hiall : i ∉ s.allQ := by simp [inv.memAll i, h, inAllStatus]
  have higood : i ∈ s.goodQ := by simp [inv.memGood i, h, inGoodStatus]
  have hienq : i ∈ s.enqSeq := by simp [inv.memEnq i, h, enqSideStatus]
  have hiproc : i ∈ s.procSeq := by simp [inv.memProc i, h, procSideStatus]
  rcases inv.enqSplit with ⟨q, hq1, hq2⟩
  have hnd2 := inv.enqNodup
  rw [hq1] at hnd2
  have hdisj := (List.nodup_append.mp hnd2).2.2
  have hgnd : s.goodQ.Nodup := hnd2.of_append_right
  have hitail : i ∉ s.goodQ.tail := by
    rw [hgd] at hgnd
    exact (List.nodup_cons.mp hgnd).1
  refine ⟨?_, ?_, ?_, ?_, ?_, ?_, ?_, ?_, ?_, ?_, ?_, ?_, ?_, ?_, ?_⟩
  · intro j
    rw [e4, e1]
    by_cases hj : j = i
    · subst hj
      rw [setStatus_self]
      simp [inv.memArr j, h]
    · rw [setStatus_other _ _ hj]
      exact inv.memArr j
  · intro j
    rw [e2, e1]
    by_cases hj : j = i
    · subst hj
      rw [setStatus_self]
      simp [hiall, inAllStatus]
    · rw [setStatus_other _ _ hj]
      exact inv.memAll j
  · intro j
    rw [e3, e1]
    by_cases hj : j = i
    · subst hj
      rw [setStatus_self]
      simp [hitail, inGoodStatus]
    · rw [setStatus_other _ _ hj]
      rw [mem_of_tail_ne hh hj]
      exact inv.memGood j
  · intro j
    rw [e5, e1]
    by_cases hj : j = i
    · subst hj
      rw [setStatus_self]
      simp [hienq, enqSideStatus]
    · rw [setStatus_other _ _ hj]
      exact inv.memEnq j
  · intro j
    rw [e6, e1]
    by_cases hj : j = i
    · subst hj
      rw [setStatus_self]
      simp [hiproc, procSideStatus]
    · rw [setStatus_other _ _ hj]
      exact inv.memProc j
  · rw [e4]; exact inv.arrNodup
  · rw [e5]; exact inv.enqNodup
  · rw [e6]; exact inv.procNodup
  · rcases inv.arrSplit with ⟨p, hp1, hp2⟩
    refine ⟨p, ?_, ?_⟩
    · rw [e4, e2]; exact hp1
    · intro j hjp
      rw [e1]
      by_cases hji : j = i
      · subst hji
        rw [setStatus_self]
        rfl
      · rw [setStatus_other _ _ hji]
        exact hp2 j hjp
  · refine ⟨q ++ [i], ?_, ?_⟩
    · rw [e5, e3, hq1, List.append_assoc]
      conv_lhs => rw [hgd]
      rfl
    · intro j hjq
      rw [e1]
      rcases List.mem_append.mp hjq with h2 | h2
      · have hji : j ≠ i := by
          intro hx; subst hx
          exact hdisj h2 higood
        rw [setStatus_other _ _ hji]
        exact hq2 j h2
      · have hji : j = i := by simpa using h2
        subst hji
        rw [setStatus_self]
  · intro j hj
    rw [e1] at hj
    rw [e2]
    by_cases hji : j = i
    · subst hji
      rw [setStatus_self] at hj
      simp [atHead] at hj
    · rw [setStatus_other _ _ hji] at hj
      exact inv.headAll j hj
  · intro j hj
    rw [e1] at hj
    rw [e3]
    by_cases hji : j = i
    · subst hji
      rw [setStatus_self] at hj
      simp at hj
    · rw [setStatus_other _ _ hji] at hj
      have h2 := inv.headGood j hj
      rw [hh] at h2
      exact absurd (Option.some.inj h2).symm hji
  · intro a b hab
    rw [e5] at hab
    rw [e4]
    exact inv.enqRespArr a b hab
  · intro a b hab
    rw [e6] at hab
    rw [e5]
    exact inv.procRespEnq a b hab
  · intro a b hab hb
    rw [e5] at hab
    rw [e1] at hb ⊢
    by_cases hai : a = i
    · subst hai
      rw [setStatus_self]
      rfl
    · rw [setStatus_other _ _ hai]
      by_cases hbi : b = i
      · subst hbi
        exact inv.procClosed a b hab (by rw [h]; rfl)
      · rw [setStatus_other _ _ hbi] at hb
        exact inv.procClosed a b hab hb

/-- Every step of the admission sequencer preserves the invariant. -/
theorem sysInv_step {n : Nat} {s s2 : Sys n} (inv : SysInv s)
    (st : Step s s2) : SysInv s2 := by
  cases st with
  | arrive i h => exact inv_arrive inv h rfl rfl rfl rfl rfl rfl
  | test i g h hh => exact inv_test inv h hh rfl rfl rfl rfl rfl rfl
  | enqGood i h hh => exact inv_enqGood inv h hh rfl rfl rfl rfl rfl rfl
  | popAllBad i h hh => exact inv_popAllBad inv h hh rfl rfl rfl rfl rfl rfl
  | popAllGood i h hh =>
    exact inv_popAllGood inv h hh rfl rfl rfl rfl rfl rfl
  | process i h hh => exact inv_process inv h hh rfl rfl rfl rfl rfl rfl
  | popGood i h hh => exact inv_popGood inv h hh rfl rfl rfl rfl rfl rfl

/-- The invariant holds in every reachable state of the admission
sequencer. -/
theorem reachable_inv {n : Nat} {s : Sys n} (h : Reachable s) : SysInv s := by
  induction h with
  | init => exact sysInv_init n
  | step h1 h2 ih => exact sysInv_step ih h2

/-- Claim C9 (confirmed): in every reachable state of the two-queue
admission sequencer of __call__, for any two connections i, j with i
arriving at the admission queue strictly before j: (a) if the effects of
both have been applied to the match state machine (_app_normal executed),
they were applied in arrival order, and (b) if i was admitted as a good
connection and j has been processed, then i has already been processed.
Hence effects are applied in strict arrival order: a later-arriving
connection is never processed before an earlier-arriving good one,
regardless of the interleaving. -/
theorem claim_C9 {n : Nat} (s : Sys n) (hr : Reachable s) (i j : Fin n)
    (hij : seqBefore s.arrSeq i j) :
    (i ∈ s.procSeq → j ∈ s.procSeq → seqBefore s.procSeq i j) ∧
    (enqSideStatus (s.status i) = true → j ∈ s.procSeq → i ∈ s.procSeq) := by
  have inv := reachable_inv hr
  have hne : i ≠ j := by
    intro hx; subst hx
    exact seqBefore_irrefl inv.arrNodup i hij
  constructor
  · intro hi hj
    rcases seqBefore_total inv.procNodup hi hj hne with h2 | h2
    · exact h2
    · have h3 := inv.enqRespArr j i (inv.procRespEnq j i h2)
      exact absurd (seqBefore_asymm inv.arrNodup hij h3) hne
  · intro hgood hj
    have hiE : i ∈ s.enqSeq := (inv.memEnq i).mpr hgood
    have hjP : procSideStatus (s.status j) = true := (inv.memProc j).mp hj
    have hjE : j ∈ s.enqSeq := (inv.memEnq j).mpr (procSide_enqSide hjP)
    rcases seqBefore_total inv.enqNodup hiE hjE hne with h2 | h2
    · exact (inv.memProc i).mpr (inv.procClosed i j h2 hjP)
    · have h3 := inv.enqRespArr j i h2
      exact absurd (seqBefore_asymm inv.arrNodup hij h3) hne

/-- Witness for claim C9: a concrete interleaved execution of two good
connections that arrive in the order 0, 1; both are processed and the
theorem yields that their effects were applied in arrival order. -/
theorem wit_C9 :
    ∃ s : Sys 2, Reachable s ∧ s.arrSeq = [0, 1] ∧ s.procSeq = [0, 1] ∧
      seqBefore s.procSeq 0 1 ∧ (0 : Fin 2) ∈ s.procSeq := by
  have r0 : Reachable (initSys 2) := Reachable.init
  have r1 := Reachable.step r0 (Step.arrive _ 0 (by decide))
  have r2 := Reachable.step r1 (Step.arrive _ 1 (by decide))
  have r3 := Reachable.step r2 (Step.test _ 0 true (by decide) (by decide))
  have r4 := Reachable.step r3 (Step.enqGood _ 0 (by decide) (by decide))
  have r5 := Reachable.step r4 (Step.popAllGood _ 0 (by decide) (by decide))
  have r6 := Reachable.step r5 (Step.test _ 1 true (by decide) (by decide))
  have r7 := Reachable.step r6 (Step.enqGood _ 1 (by decide) (by decide))
  have r8 := Reachable.step r7 (Step.popAllGood _ 1 (by decide) (by decide))
  have r9 := Reachable.step r8 (Step.process _ 0 (by decide) (by decide))
  have r10 := Reachable.step r9 (Step.popGood _ 0 (by decide) (by decide))
  have r11 := Reachable.step r10 (Step.process _ 1 (by decide) (by decide))
  refine ⟨_, r11, by decide, by decide, ?_, by decide⟩
  exact (claim_C9 _ r11 0 1 (by decide)).1 (by decide) (by decide)

end GGP
